import Mathlib

/-!
Verification of the cross-ledger reconciliation and caching engine of a
couple-budget web application.  The JavaScript source is embedded shallowly:
pure helpers become Lean functions over `String`/`List Char`/`Int`, the
stateful services become explicit state-passing functions, and remote calls
become parameters describing the single response a code path consumes.
JavaScript numbers that hold integer milliunit amounts are modelled as `Int`,
display-currency amounts as `Rat`, timestamps as `Nat` milliseconds, and
calendar dates as ISO `YYYY-MM-DD` strings (compared lexicographically, as the
source does) or as whole-day numbers where the source converts to day
differences.
-/

/-! ## Tag codec (src/js/utils.js, LinkUtils)

The tag regex is `#([A-Z0-9-]+)#`, matched leftmost.  Because the identifier
character class excludes `#`, the JavaScript backtracking search at a given
`#` succeeds exactly when the maximal run of identifier characters after it is
nonempty and is followed by another `#`; otherwise the engine advances one
position.  `findTag` implements exactly that: it returns the prefix before the
first delimited match, the captured identifier, and the suffix after the
closing delimiter. -/

/-- Character class `[A-Z0-9-]` of the tag regex. -/
def isIdChar (c : Char) : Bool :=
  (('A' ≤ c) && (c ≤ 'Z')) || (('0' ≤ c) && (c ≤ '9')) || (c == '-')

/-- Whether a regex match starts right after an opening `#`: the maximal
identifier run in `rest` is nonempty and is followed by a closing `#`. -/
def tagAt (rest : List Char) : Bool :=
  (!(rest.takeWhile isIdChar).isEmpty) &&
    ((rest.dropWhile isIdChar).head? == some '#')

/-- Leftmost match of `#([A-Z0-9-]+)#`: returns (prefix before the match,
captured identifier, suffix after the closing delimiter), or `none`. -/
def findTag : List Char → Option (List Char × List Char × List Char)
  | [] => none
  | c :: rest =>
    if (c == '#') && tagAt rest then
      some ([], rest.takeWhile isIdChar, (rest.dropWhile isIdChar).tail)
    else
      match findTag rest with
      | some (p, cap, suf) => some (c :: p, cap, suf)
      | none => none

/-- `LinkUtils.extractId`: first delimited identifier in a memo, or none.
A null/empty memo has no match. -/
def extractId (memo : String) : Option String :=
  match findTag memo.data with
  | some (_, cap, _) => some (String.mk cap)
  | none => none

/-- `LinkUtils.hasId`. -/
def hasId (memo : String) : Bool :=
  (findTag memo.data).isSome

/-- `LinkUtils.formatIdTag`. -/
def formatIdTag (id : String) : String :=
  "#" ++ id ++ "#"

/-- `LinkUtils.appendIdToMemo`: empty memo becomes the bare tag; a memo whose
first regex match exists gets that match replaced in place; otherwise the tag
is appended after a space. -/
def appendIdToMemo (memo : String) (id : String) : String :=
  let tag := formatIdTag id
  if memo = "" then tag
  else
    match findTag memo.data with
    | some (p, _, suf) => String.mk (p ++ tag.data ++ suf)
    | none => memo ++ " " ++ tag

/-- `LinkUtils.ID_CHARS`: the 32-symbol alphabet for random identifiers. -/
def ID_CHARS : List Char :=
  "ABCDEFGHJKLMNPQRSTUVWXYZ23456789".data

/-- `LinkUtils.generateId`: 6 characters drawn from `ID_CHARS`.  The calls to
`Math.random` are modelled by the `picks` argument selecting one alphabet
index per position. -/
def generateId (picks : Fin 6 → Fin 32) : String :=
  String.mk ((List.finRange 6).map fun i =>
    ID_CHARS.get ⟨(picks i).val, Nat.lt_of_lt_of_le (picks i).isLt (by decide)⟩)

/-- `LinkUtils.generateBalancingId`. -/
def generateBalancingId (picks : Fin 6 → Fin 32) : String :=
  "B-" ++ generateId picks

/-- `String.prototype.padStart(2, '0')` as used on a positive decimal
rendering. -/
def padStart2 (s : String) : String :=
  if 2 ≤ s.length then s
  else String.mk (List.replicate (2 - s.length) '0') ++ s

/-- `String.prototype.slice(-2)`: the last two characters (the whole string if
shorter). -/
def sliceLast2 (s : String) : String :=
  String.mk (s.data.drop (s.data.length - 2))

/-- `LinkUtils.generateMonthlyId month year`: deterministic tag
`M-<2-digit month>-<last 2 digits of year>`. -/
def generateMonthlyId (month year : Nat) : String :=
  "M-" ++ padStart2 (Nat.repr month) ++ "-" ++ sliceLast2 (Nat.repr year)

/-- `LinkUtils.isBalancingId`: truthy identifier starting with `B-`. -/
def isBalancingId (id : String) : Bool :=
  match id.data with
  | c1 :: c2 :: _ => (c1 == 'B') && (c2 == '-')
  | _ => false

/-- `LinkUtils.isMonthlyId`: truthy identifier starting with `M-`. -/
def isMonthlyId (id : String) : Bool :=
  match id.data with
  | c1 :: c2 :: _ => (c1 == 'M') && (c2 == '-')
  | _ => false

/-- `String.prototype.split('-')` on the character list of the string. -/
def splitDash : List Char → List (List Char)
  | [] => [[]]
  | c :: rest =>
    if c = '-' then [] :: splitDash rest
    else
      match splitDash rest with
      | h :: t => (c :: h) :: t
      | [] => [[c]]

/-- Decimal value of a digit list. -/
def decValue (ds : List Char) : Nat :=
  ds.foldl (fun acc c => acc * 10 + (c.toNat - ('0').toNat)) 0

/-- JavaScript `parseInt` restricted to the inputs that occur here: the value
of the maximal leading digit run, `none` when there is no leading digit
(`NaN`).  The sign/whitespace/hex prefixes of full `parseInt` are never
exercised by the claims. -/
def parseIntJs (s : List Char) : Option Nat :=
  let ds := s.takeWhile Char.isDigit
  if ds = [] then none else some (decValue ds)

/-- `LinkUtils.parseMonthlyId`: requires the `M-` clue and exactly 3
dash-separated parts, then returns `(parseInt month, 2000 + parseInt year)`.
`none` on the outside models the JavaScript `null` return; `none` on the
inside models a `NaN` component. -/
def parseMonthlyId (id : String) : Option (Option Nat × Option Nat) :=
  if isMonthlyId id then
    match splitDash id.data with
    | [_, p1, p2] => some (parseIntJs p1, (parseIntJs p2).map (fun n => 2000 + n))
    | _ => none
  else none

/-! ## Transactions and the reactive store (src/js/setup.js, Store)

A cached transaction carries exactly the ten fields of
`Storage.TRANSACTION_FIELDS`; those are the only fields the reconciliation
code reads, so the model universe is this projection. -/

/-- A transaction in the minimal cached projection. -/
structure Txn where
  id : String
  date : String
  amount : Int
  payee_name : String
  memo : String
  account_id : Option String
  category_id : Option String
  category_name : String
  deleted : Bool
  cleared : String
deriving DecidableEq

/-- Shorthand for building a transaction from the fields the claims exercise. -/
def mkTxn (id date : String) (amount : Int) (memo : String)
    (account category : Option String) (deleted : Bool) : Txn :=
  Txn.mk id date amount ("") memo account category ("") deleted ("")

/-- A participant binding from the configuration
(`config.members` entries). -/
structure Member where
  name : String
  budgetId : String
  sharedCategoryId : Option String
  balancingCategoryId : Option String
  contributionAccountId : Option String
deriving DecidableEq

/-- The configuration held by the store. -/
structure Config where
  sharedBudgetId : Option String
  members : List Member
deriving DecidableEq

/-- Entry of a tag bucket built by `Store._computeLinkedPairs`:
per-member personal transactions plus the shared-side list (each shared entry
is the transaction together with the member name it was found under). -/
structure LinkGroup where
  personal : List (String × List Txn)
  shared : List (Txn × String)
deriving DecidableEq

/-- `Object.values(group.personal).flat().length`. -/
def personalFlatCount (g : LinkGroup) : Nat :=
  ((g.personal.map Prod.snd).flatten).length

/-- `Store._isLinkComplete`: completeness of a tag bucket given the configured
member count. -/
def isLinkComplete (id : String) (g : LinkGroup) (memberCount : Nat) : Bool :=
  if isBalancingId id then
    (personalFlatCount g == memberCount) && (g.shared.length == memberCount)
  else if isMonthlyId id then
    decide (1 ≤ g.shared.length)
  else
    decide (1 ≤ personalFlatCount g) && decide (1 ≤ g.shared.length)

/-! ## Match scoring (src/js/monthly.js, Consistency.isGoodMatch)

Amounts are integer milliunits.  Dates are modelled as whole-day numbers: the
source parses two `YYYY-MM-DD` strings and divides the millisecond difference
by 86400000, which is exact for such dates. -/

/-- The amount/date pair `isGoodMatch` reads from each transaction. -/
structure MatchTxn where
  amount : Int
  date : Int
deriving DecidableEq

/-- `YnabClient.fromMilliunits`: milliunits to display-currency units. -/
def fromMilliunits (milliunits : Int) : Rat :=
  (milliunits : Rat) / 1000

/-- `YnabClient.toMilliunits`: display-currency units to milliunits. -/
def toMilliunits (amount : Rat) : Int :=
  round (amount * 1000)

/-- `Consistency.isGoodMatch`: null guard, then amount difference below 100
milliunits and date difference at most 7 days. -/
def isGoodMatch (personalTxn sharedTxn : Option MatchTxn) : Bool :=
  match personalTxn, sharedTxn with
  | some a, some b =>
    ((a.amount - b.amount).natAbs < 100) && ((a.date - b.date).natAbs ≤ 7)
  | _, _ => false

/-! ## Persistent transaction cache and delta merge (src/js/storage.js)

`Storage.updateCachedTransactions` merges a delta list into the cached array
through a JavaScript `Map` built from the cached records keyed by id.  With
pairwise-distinct cached ids (the hypothesis of the merge claims) that `Map`
is the array itself; `Map.set` on a present key replaces in place, on an
absent key appends, and `Map.delete` removes the entry, which the three
association-list operations below implement. -/

/-- The per-ledger persistent cache entry
(`{ transactions, serverKnowledge, sinceDate, lastFetch }`). -/
structure StorEntry where
  transactions : List Txn
  serverKnowledge : Int
  sinceDate : Option String
  lastFetch : Nat
deriving DecidableEq

/-- The field projection applied before caching: the model type already
carries exactly `Storage.TRANSACTION_FIELDS`, so the projection re-lists those
ten fields. -/
def stripToCacheFields (t : Txn) : Txn :=
  Txn.mk t.id t.date t.amount t.payee_name t.memo t.account_id t.category_id
    t.category_name t.deleted t.cleared

/-- `Map.set` keyed by transaction id: replace in place, else append. -/
def setById (l : List Txn) (id : String) (v : Txn) : List Txn :=
  match l with
  | [] => [v]
  | t :: ts => if t.id = id then v :: ts else t :: setById ts id v

/-- `Map.delete` keyed by transaction id. -/
def eraseById (l : List Txn) (id : String) : List Txn :=
  match l with
  | [] => []
  | t :: ts => if t.id = id then ts else t :: eraseById ts id

/-- The delta-merge loop: deleted records are removed, others are stripped and
upserted by id. -/
def mergeDelta (existing delta : List Txn) : List Txn :=
  delta.foldl
    (fun acc t =>
      if t.deleted then eraseById acc t.id
      else setById acc t.id (stripToCacheFields t))
    existing

/-- `Storage.updateCachedTransactions` at time `now`: with no existing entry
it behaves as `setCachedTransactions` (null since-watermark); otherwise it
merges the delta, installs the new cursor and refreshes the entry timestamp,
keeping the since-watermark. -/
def updateCachedTransactions (storage : Option StorEntry) (delta : List Txn)
    (newServerKnowledge : Int) (now : Nat) : StorEntry :=
  match storage with
  | none =>
    StorEntry.mk (delta.map stripToCacheFields) newServerKnowledge none now
  | some bc =>
    StorEntry.mk (mergeDelta bc.transactions delta) newServerKnowledge
      bc.sinceDate now

/-! ## Two-tier sync cache (src/js/monthly.js, DataService)

The service is modelled for one ledger: its in-process entry, its persistent
entry, the storage-degraded flag, the set of error keys already warned about,
and the raw array last pushed to the reactive store.  The single remote call
a `getTransactions` invocation performs is a parameter.  `localStorage` writes
inside the delta branch are modelled as succeeding; the quota path is carried
through `storageWriteOk` on the full-fetch branch, which is where the source
checks it. -/

/-- In-process cache entry (`_memoryCache.transactions[budgetId]`). -/
structure MemEntry where
  data : List Txn
  timestamp : Nat
  sinceDate : Option String
deriving DecidableEq

/-- Mutable service state for one ledger, including the raw array last pushed
to the reactive store (`Store.setTransactions`). -/
structure DSState where
  memCache : Option MemEntry
  storage : Option StorEntry
  storageFailed : Bool
  apiErrorsShown : List String
  quotaWarningShown : Bool
  storeTxns : Option (List Txn)
deriving DecidableEq

/-- The one remote `getAllTransactions` response a code path consumes. -/
inductive RemoteResp where
  | ok (transactions : List Txn) (serverKnowledge : Int)
  | err (msg : String)
deriving DecidableEq

/-- Filtering options of a read request (fetch floor plus the client-side
filters of `_filterTransactions`). -/
structure FetchOpts where
  forceRefresh : Bool
  sinceDate : Option String
  accountId : Option String
  categoryId : Option String
  untilDate : Option String
  month : Option String
deriving DecidableEq

/-- A read request with no force-refresh and no filters. -/
def plainOpts : FetchOpts :=
  FetchOpts.mk false none none none none none

/-- `DataService._filterTransactions`: sequential client-side filters. -/
def filterTransactions (transactions : List Txn) (o : FetchOpts) : List Txn :=
  let f1 := match o.accountId with
    | some a => transactions.filter (fun t => t.account_id == some a)
    | none => transactions
  let f2 := match o.categoryId with
    | some c => f1.filter (fun t => t.category_id == some c)
    | none => f1
  let f3 := match o.sinceDate with
    | some d => f2.filter (fun t => d ≤ t.date)
    | none => f2
  let f4 := match o.untilDate with
    | some d => f3.filter (fun t => t.date ≤ d)
    | none => f3
  match o.month with
  | some m => f4.filter (fun t => List.isPrefixOf (m.data.take 7) t.date.data)
  | none => f4

/-- The view `Storage.getCachedTransactions` returns. -/
structure CachedView where
  transactions : List Txn
  serverKnowledge : Int
  sinceDate : Option String
deriving DecidableEq

/-- `Storage.getCachedTransactions` at time `now`; `maxAge = none` models the
`Infinity` argument. -/
def getCachedTransactionsS (storage : Option StorEntry) (now : Nat)
    (maxAge : Option Nat) : Option CachedView :=
  match storage with
  | none => none
  | some bc =>
    match maxAge with
    | some m =>
      if m < now - bc.lastFetch then none
      else some (CachedView.mk bc.transactions bc.serverKnowledge bc.sinceDate)
    | none => some (CachedView.mk bc.transactions bc.serverKnowledge bc.sinceDate)

/-- `MEMORY_CACHE_TTL` and the default `maxAge` of
`Storage.getCachedTransactions`, both 10 minutes of milliseconds. -/
def CACHE_TTL : Nat := 600000

/-- Outcome of one `DataService` read: the returned (or thrown) value, the
service state afterwards, and whether this call surfaced an api-error
toast. -/
structure DSOutcome where
  result : Except String (List Txn)
  state : DSState
  warned : Bool

/-- `DataService._showApiError`: warn once per session per error kind, keyed
by the first 50 characters of the message. -/
def showApiErrorS (st : DSState) (msg : String) : DSState × Bool :=
  let key := msg.take 50
  if st.apiErrorsShown.contains key then (st, false)
  else
    (DSState.mk st.memCache st.storage st.storageFailed (key :: st.apiErrorsShown)
      st.quotaWarningShown st.storeTxns, true)

/-- The storage-tier branch of the catch block of
`DataService._fetchAndCacheTransactions`: serve a nonempty persistent view
within the 10-minute window, else warn and rethrow. -/
def fetchFallbackStorage (st : DSState) (now : Nat) (o : FetchOpts)
    (msg : String) : DSOutcome :=
  match getCachedTransactionsS st.storage now (some CACHE_TTL) with
  | some sc =>
    if sc.transactions ≠ [] then
      let (st2, w) := showApiErrorS st msg
      DSOutcome.mk (Except.ok (filterTransactions sc.transactions o))
        (DSState.mk (some (MemEntry.mk sc.transactions now sc.sinceDate))
          st2.storage st2.storageFailed st2.apiErrorsShown st2.quotaWarningShown
          (some sc.transactions))
        w
    else
      let (st2, w) := showApiErrorS st msg
      DSOutcome.mk (Except.error msg) st2 w
  | none =>
    let (st2, w) := showApiErrorS st msg
    DSOutcome.mk (Except.error msg) st2 w

/-- `DataService._fetchAndCacheTransactions`: full fetch from `sinceDate`;
on success cache persistently (marking the ledger storage-degraded and
warning once if the write fails), refresh the in-process entry and the store;
on failure fall back to a nonempty in-process entry, then to a nonempty
persistent view within the 10-minute window, then rethrow. -/
def fetchAndCacheDS (st : DSState) (now : Nat) (sinceDate : String)
    (o : FetchOpts) (remote : RemoteResp) (storageWriteOk : Bool) : DSOutcome :=
  match remote with
  | RemoteResp.ok txns k =>
    let storage2 := if storageWriteOk then
        some (StorEntry.mk (txns.map stripToCacheFields) k (some sinceDate) now)
      else st.storage
    let failed2 := if storageWriteOk then st.storageFailed else true
    let quota2 := if storageWriteOk then st.quotaWarningShown else true
    DSOutcome.mk (Except.ok (filterTransactions txns o))
      (DSState.mk (some (MemEntry.mk txns now (some sinceDate))) storage2 failed2
        st.apiErrorsShown quota2 (some txns))
      false
  | RemoteResp.err msg =>
    match st.memCache with
    | some me =>
      if me.data ≠ [] then
        let (st2, w) := showApiErrorS st msg
        DSOutcome.mk (Except.ok (filterTransactions me.data o)) st2 w
      else
        fetchFallbackStorage st now o msg
    | none => fetchFallbackStorage st now o msg

/-- The delta-sync branch of `DataService.getTransactions`, entered with a
fresh persistent view `sc` whose coverage floor admits the request. -/
def deltaBranchDS (st : DSState) (now : Nat) (o : FetchOpts) (sc : CachedView)
    (remote : RemoteResp) : DSOutcome :=
  match remote with
  | RemoteResp.ok dtx k =>
    if dtx ≠ [] then
      let entry2 := updateCachedTransactions st.storage dtx k now
      let merged := entry2.transactions
      DSOutcome.mk (Except.ok (filterTransactions merged o))
        (DSState.mk (some (MemEntry.mk merged now sc.sinceDate)) (some entry2)
          st.storageFailed st.apiErrorsShown st.quotaWarningShown (some merged))
        false
    else
      DSOutcome.mk (Except.ok (filterTransactions sc.transactions o))
        (DSState.mk (some (MemEntry.mk sc.transactions now sc.sinceDate))
          st.storage st.storageFailed st.apiErrorsShown st.quotaWarningShown
          (some sc.transactions))
        false
  | RemoteResp.err _ =>
    DSOutcome.mk (Except.ok (filterTransactions sc.transactions o))
      (DSState.mk st.memCache st.storage st.storageFailed st.apiErrorsShown
        st.quotaWarningShown (some sc.transactions))
      false

/-- The part of `DataService.getTransactions` after the in-process branch:
consult the persistent tier, choose delta sync, full refetch from an earlier
floor, or plain full fetch. -/
def storageBranchDS (st : DSState) (now : Nat) (o : FetchOpts)
    (remote : RemoteResp) (storageWriteOk : Bool) (requested : String) : DSOutcome :=
  let storageCached := if st.storageFailed then none
    else getCachedTransactionsS st.storage now (some CACHE_TTL)
  match storageCached with
  | some sc =>
    if o.forceRefresh then
      fetchAndCacheDS st now requested o remote storageWriteOk
    else
      match sc.sinceDate with
      | some cachedSince =>
        if requested < cachedSince then
          fetchAndCacheDS st now requested o remote storageWriteOk
        else deltaBranchDS st now o sc remote
      | none => deltaBranchDS st now o sc remote
  | none => fetchAndCacheDS st now requested o remote storageWriteOk

/-- `DataService.getTransactions` for one ledger: in-process tier, then
persistent tier with delta sync, then full fetch, with the read-path error
fallbacks of `_fetchAndCacheTransactions`. -/
def getTransactionsDS (st : DSState) (now : Nat) (o : FetchOpts)
    (remote : RemoteResp) (storageWriteOk : Bool) (defaultSince : String) :
    DSOutcome :=
  let requested := o.sinceDate.getD defaultSince
  match st.memCache with
  | some me =>
    if (!o.forceRefresh) && (now - me.timestamp < CACHE_TTL) then
      match me.sinceDate with
      | none => DSOutcome.mk (Except.ok (filterTransactions me.data o)) st false
      | some msd =>
        if msd ≤ requested then
          DSOutcome.mk (Except.ok (filterTransactions me.data o)) st false
        else if st.storageFailed then
          DSOutcome.mk (Except.ok (filterTransactions me.data o)) st false
        else storageBranchDS st now o remote storageWriteOk requested
    else storageBranchDS st now o remote storageWriteOk requested
  | none => storageBranchDS st now o remote storageWriteOk requested

/-! ## Monthly contribution flows (src/js/monthly.js)

`Monthly.ensureContributionTransaction` receives the transactions of the
shared-ledger contribution account for the month and decides between update,
no-op and create.  `Consistency.createMonthlyIncome` has the same transaction
state available through the store but never consults it; its embedding takes
the same list to make that observable. -/

/-- The remote action `ensureContributionTransaction` performs. -/
inductive EnsureAction where
  | update (txnId : String) (amount : Int)
  | noop
  | create (date : String) (memo : String) (amount : Int)
      (categoryId : Option String)
deriving DecidableEq

/-- `Monthly.ensureContributionTransaction`: look for a transaction whose
extracted tag equals the deterministic monthly id; update it when its amount
differs, leave it alone when equal, create one (tagged, dated on the first of
the month, in the ready-to-assign category when known) when absent. -/
def ensureContributionAction (transactions : List Txn) (monthlyId : String)
    (amountMilliunits : Int) (monthDate : String)
    (readyToAssignId : Option String) : EnsureAction :=
  match transactions.find? (fun txn => extractId txn.memo == some monthlyId) with
  | some existingTxn =>
    if existingTxn.amount ≠ amountMilliunits then
      EnsureAction.update existingTxn.id amountMilliunits
    else EnsureAction.noop
  | none =>
    EnsureAction.create monthDate ("#" ++ monthlyId ++ "#") amountMilliunits
      readyToAssignId

/-- The create call `Consistency.createMonthlyIncome` issues. -/
structure CreateCall where
  date : String
  memo : String
  amount : Int
deriving DecidableEq

/-- `Consistency.createMonthlyIncome`: after the amount guard and the user
confirmation it always issues a create tagged with the deterministic monthly
id.  The `existingTxns` argument is the contribution-account state the flow
has access to; the source never reads it, which the definition mirrors by
ignoring it. -/
def createMonthlyIncomeCall (existingTxns : List Txn) (amountSet : Bool)
    (confirmed : Bool) (monthStr : String) (month year : Nat)
    (amountMilliunits : Int) : Option CreateCall :=
  if !amountSet then none
  else if !confirmed then none
  else some (CreateCall.mk (monthStr ++ "-01")
    ("#" ++ generateMonthlyId month year ++ "#") amountMilliunits)

/-! ## Balancing-set creation (src/js/monthly.js, createBalancingTransaction)

The flow is modelled as the list of remote calls it issues plus a success
flag (`false` means the flow stopped early: validation failure, cancelled
confirmation, insufficient budget, or the missing-transfer-payee throw that
happens after the two personal creates). -/

/-- The category-balance snapshot (`state.categoryBalances[member]`), in
display-currency units as the source holds it. -/
structure CatBal where
  balancing : Rat
  shared : Rat
  sharedBudgeted : Rat
  balancingBudgeted : Rat
deriving DecidableEq

/-- A shared-ledger account as listed in `state.sharedAccounts`. -/
structure Account where
  id : String
  transfer_payee_id : Option String
deriving DecidableEq

/-- A remote mutation issued by the balancing flow. -/
inductive RemoteCall where
  | updBudget (budgetId month : String) (categoryId : Option String)
      (budgeted : Int)
  | createTxn (budgetId accountId date : String) (amount : Int) (memo : String)
      (categoryId : Option String) (transferPayee : Option String)
deriving DecidableEq

/-- Whether a remote call is a transaction create. -/
def RemoteCall.isCreate : RemoteCall → Bool
  | RemoteCall.createTxn _ _ _ _ _ _ _ => true
  | _ => false

/-- Whether a remote call is a transfer-type transaction create. -/
def RemoteCall.isTransferCreate : RemoteCall → Bool
  | RemoteCall.createTxn _ _ _ _ _ _ (some _) => true
  | _ => false

/-- Modelled from the spec: the remote service is external and its transfer
semantics are not in this repository; per the spec a transfer-type create
produces a paired entry in the destination account, so it yields two ledger
entries and every other create yields one. -/
def resultingEntryCount (calls : List RemoteCall) : Nat :=
  (calls.map fun c =>
    if c.isTransferCreate then 2 else if c.isCreate then 1 else 0).sum

/-- The category-budget moves of the precondition step: when the balancing
category lacks headroom, move the shortfall from the shared-expense category,
aborting (`none`) when even that category cannot cover it. -/
def balancingBudgetCalls (fromMember : Member) (currentMonth : String)
    (amount : Rat) (fromCatBal : Option CatBal) : Option (List RemoteCall) :=
  match fromCatBal with
  | some cb =>
    if cb.balancing < amount then
      let amountToMove := amount - cb.balancing
      if cb.shared < amountToMove then none
      else some
        [ RemoteCall.updBudget fromMember.budgetId currentMonth
            fromMember.sharedCategoryId
            (toMilliunits (cb.sharedBudgeted - amountToMove)),
          RemoteCall.updBudget fromMember.budgetId currentMonth
            fromMember.balancingCategoryId
            (toMilliunits (cb.balancingBudgeted + amountToMove)) ]
    else some []
  | none => some []

/-- `Consistency.createBalancingTransaction`: validate the form, generate one
balancing tag, upsert it into the user memo, confirm, adjust budgets if
needed, then create the payer-personal outflow, the payee-personal inflow and
the shared-ledger transfer (which requires the transfer payee of the payee
contribution account, looked up only after the two personal creates). -/
def createBalancingCalls (config : Config) (fromMember toMember : Member)
    (amount : Rat) (fromAccountId toAccountId date userMemo : String)
    (picks : Fin 6 → Fin 32) (confirmed : Bool) (fromCatBal : Option CatBal)
    (currentMonth : String) (sharedAccounts : List Account) :
    List RemoteCall × Bool :=
  if amount = 0 ∨ date = "" ∨ fromAccountId = "" ∨ toAccountId = "" then
    ([], false)
  else
    let amountMilliunits := toMilliunits amount
    let linkId := generateBalancingId picks
    let memo := appendIdToMemo userMemo linkId
    if !confirmed then ([], false)
    else
      match balancingBudgetCalls fromMember currentMonth amount fromCatBal with
      | none => ([], false)
      | some budgetCalls =>
        let create1 := RemoteCall.createTxn fromMember.budgetId fromAccountId
          date (-amountMilliunits) memo fromMember.balancingCategoryId none
        let create2 := RemoteCall.createTxn toMember.budgetId toAccountId
          date amountMilliunits memo toMember.balancingCategoryId none
        match sharedAccounts.find?
            (fun a => some a.id == toMember.contributionAccountId) with
        | some destAccount =>
          match destAccount.transfer_payee_id with
          | some transferPayee =>
            (budgetCalls ++ [create1, create2,
              RemoteCall.createTxn (config.sharedBudgetId.getD (""))
                (fromMember.contributionAccountId.getD ("")) date
                (-amountMilliunits) memo none (some transferPayee)], true)
          | none => (budgetCalls ++ [create1, create2], false)
        | none => (budgetCalls ++ [create1, create2], false)

/-! ## Derived-state recomputation (src/js/setup.js, Store._computeLinkedPairs)

The raw per-ledger arrays are an association list keyed by budget id (object
keys are unique, so the first entry for an id is the entry).  The tag buckets
`byId` and the four per-member lists are association lists with the
set-or-append update of JavaScript objects.  `Array.prototype.sort` is
modelled by insertion sort on the same comparator; `localeCompare` on ISO
dates is lexicographic comparison. -/

/-- The raw transaction state: budget id to transaction array. -/
abbrev BudgetStore := List (String × List Txn)

/-- `this.state.transactions[budgetId] || []`. -/
def budgetTxns (store : BudgetStore) (budgetId : String) : List Txn :=
  match store.find? (fun p => p.1 == budgetId) with
  | some p => p.2
  | none => []

/-- Association-list read (JavaScript object property access). -/
def alGet {α : Type} (l : List (String × α)) (k : String) : Option α :=
  (l.find? (fun p => p.1 == k)).map Prod.snd

/-- Association-list write (JavaScript object property set: replace in place
or append). -/
def alSet {α : Type} (l : List (String × α)) (k : String) (v : α) :
    List (String × α) :=
  match l with
  | [] => [(k, v)]
  | (k2, v2) :: t => if k2 = k then (k, v) :: t else (k2, v2) :: alSet t k v

/-- Push one element onto the list stored under a key, creating the list when
absent. -/
def alPush {α : Type} (l : List (String × List α)) (k : String) (x : α) :
    List (String × List α) :=
  alSet l k (((alGet l k).getD []) ++ [x])

/-- `Store._getFilteredTransactions` restricted to the two filters the
recomputation uses; an absent option applies no filter, exactly like the
undefined-option truthiness checks of the source. -/
def storeFiltered (store : BudgetStore) (budgetId : String)
    (accountId categoryId : Option String) : List Txn :=
  let t1 := budgetTxns store budgetId
  let t2 := match accountId with
    | some a => t1.filter (fun t => t.account_id == some a)
    | none => t1
  match categoryId with
  | some c => t2.filter (fun t => t.category_id == some c)
  | none => t2

/-- The seen-id deduplication loop over the concatenated category lists. -/
def dedupByIdGo : List Txn → List String → List Txn
  | [], _ => []
  | t :: ts, seen =>
    if t.id ∈ seen then dedupByIdGo ts seen
    else t :: dedupByIdGo ts (t.id :: seen)

/-- Deduplicate by transaction id, keeping first occurrences. -/
def dedupById (l : List Txn) : List Txn :=
  dedupByIdGo l []

/-- The personal transactions gathered for a member: shared-expense category
plus (when configured) balancing category, deduplicated by id. -/
def personalTxnsFor (store : BudgetStore) (m : Member) : List Txn :=
  let sharedCategoryTxns := storeFiltered store m.budgetId none m.sharedCategoryId
  let balancingCategoryTxns := match m.balancingCategoryId with
    | some c => storeFiltered store m.budgetId none (some c)
    | none => []
  dedupById (sharedCategoryTxns ++ balancingCategoryTxns)

/-- The five accumulators of the recomputation pass. -/
structure Buckets where
  byId : List (String × LinkGroup)
  unlinkedPersonal : List (String × List Txn)
  unlinkedShared : List (String × List Txn)
  linkedPersonal : List (String × List (Txn × String))
  linkedShared : List (String × List (Txn × String))

/-- Append a personal transaction to a tag bucket under a member name. -/
def pushPersonal (byId : List (String × LinkGroup)) (id memberName : String)
    (t : Txn) : List (String × LinkGroup) :=
  let g := (alGet byId id).getD (LinkGroup.mk [] [])
  alSet byId id (LinkGroup.mk (alPush g.personal memberName t) g.shared)

/-- Append a shared transaction (annotated with the member name) to a tag
bucket. -/
def pushShared (byId : List (String × LinkGroup)) (id memberName : String)
    (t : Txn) : List (String × LinkGroup) :=
  let g := (alGet byId id).getD (LinkGroup.mk [] [])
  alSet byId id (LinkGroup.mk g.personal (g.shared ++ [(t, memberName)]))

/-- Process one personal transaction of a member: skip deleted, then route by
extracted tag. -/
def processPersonalTxn (b : Buckets) (m : Member) (t : Txn) : Buckets :=
  if t.deleted then b
  else
    match extractId t.memo with
    | some id =>
      Buckets.mk (pushPersonal b.byId id m.name t) b.unlinkedPersonal
        b.unlinkedShared (alPush b.linkedPersonal m.name (t, id)) b.linkedShared
    | none =>
      Buckets.mk b.byId (alPush b.unlinkedPersonal m.name t) b.unlinkedShared
        b.linkedPersonal b.linkedShared

/-- Process one shared-ledger transaction found under a member contribution
account: skip deleted, then route by extracted tag. -/
def processSharedTxn (b : Buckets) (m : Member) (t : Txn) : Buckets :=
  if t.deleted then b
  else
    match extractId t.memo with
    | some id =>
      Buckets.mk (pushShared b.byId id m.name t) b.unlinkedPersonal
        b.unlinkedShared b.linkedPersonal (alPush b.linkedShared m.name (t, id))
    | none =>
      Buckets.mk b.byId b.unlinkedPersonal (alPush b.unlinkedShared m.name t)
        b.linkedPersonal b.linkedShared

/-- Process one member: their personal transactions, then the shared-ledger
transactions of their contribution account. -/
def processMember (store : BudgetStore) (sharedBudgetId : String) (b : Buckets)
    (m : Member) : Buckets :=
  let b1 := (personalTxnsFor store m).foldl (fun acc t => processPersonalTxn acc m t) b
  let sharedTxns := storeFiltered store sharedBudgetId m.contributionAccountId none
  sharedTxns.foldl (fun acc t => processSharedTxn acc m t) b1

/-- The accumulators initialised with an empty list per member. -/
def initBuckets (members : List Member) : Buckets :=
  Buckets.mk [] (members.map fun m => (m.name, []))
    (members.map fun m => (m.name, [])) (members.map fun m => (m.name, []))
    (members.map fun m => (m.name, []))

/-- A fully derived tag bucket as exposed on `state.linkedPairs`. -/
structure LinkedPair where
  id : String
  isBalancing : Bool
  isMonthly : Bool
  monthlyInfo : Option (Option Nat × Option Nat)
  personal : List (String × List Txn)
  shared : List (Txn × String)
  isComplete : Bool

/-- `Store._getGroupLatestDate`. -/
def groupLatestDate (pr : LinkedPair) : String :=
  let l1 := ((pr.personal.map Prod.snd).flatten).foldl
    (fun latest t => if latest < t.date then t.date else latest) ("0000-00-00")
  pr.shared.foldl (fun latest e => if latest < e.1.date then e.1.date else latest) l1

/-- Sort a list by ISO date descending (the `b.date.localeCompare(a.date)`
comparator), modelled by insertion sort. -/
def sortByDateDesc (l : List Txn) : List Txn :=
  l.insertionSort (fun a b => b.date ≤ a.date)

/-- Date-descending sort of annotated transactions. -/
def sortByDateDescA (l : List (Txn × String)) : List (Txn × String) :=
  l.insertionSort (fun a b => b.1.date ≤ a.1.date)

/-- The published derived state. -/
structure DerivedState where
  linkedPairs : List LinkedPair
  unlinkedPersonal : List (String × List Txn)
  unlinkedShared : List (String × List Txn)
  linkedPersonal : List (String × List (Txn × String))
  linkedShared : List (String × List (Txn × String))

/-- `Store._computeLinkedPairs`: `none` when the configuration guard rejects
(no members or no shared budget id); otherwise the full recomputation pass,
including the conversion of `byId` into sorted `linkedPairs` and the
date-descending sort of every per-member list. -/
def computeLinkedPairs (config : Config) (store : BudgetStore) :
    Option DerivedState :=
  match config.sharedBudgetId, config.members with
  | some sharedBudgetId, m0 :: ms =>
    let members := m0 :: ms
    let b := members.foldl (processMember store sharedBudgetId)
      (initBuckets members)
    let linkedPairs := b.byId.map fun p =>
      LinkedPair.mk p.1 (isBalancingId p.1) (isMonthlyId p.1)
        (parseMonthlyId p.1) p.2.personal p.2.shared
        (isLinkComplete p.1 p.2 members.length)
    some (DerivedState.mk
      (linkedPairs.insertionSort
        (fun a b => groupLatestDate b ≤ groupLatestDate a))
      (b.unlinkedPersonal.map fun p => (p.1, sortByDateDesc p.2))
      (b.unlinkedShared.map fun p => (p.1, sortByDateDesc p.2))
      (b.linkedPersonal.map fun p => (p.1, sortByDateDescA p.2))
      (b.linkedShared.map fun p => (p.1, sortByDateDescA p.2)))
  | _, _ => none

/-- `Store.removeTransaction`: splice out the first transaction with the
given id (no change when the budget has no array or the id is absent). -/
def removeTransaction (store : BudgetStore) (budgetId transactionId : String) :
    BudgetStore :=
  store.map fun p =>
    if p.1 = budgetId then
      (p.1, match p.2.findIdx? (fun t => t.id == transactionId) with
        | some i => p.2.eraseIdx i
        | none => p.2)
    else p

/-- A transaction admissible in a derived bucket: its deleted flag is off and
it is drawn from one of the raw per-ledger arrays of the store (so removing a
record from the raw set removes it from every bucket on the next
recomputation). -/
def GoodTxn (store : BudgetStore) (t : Txn) : Prop :=
  t.deleted = false ∧ ∃ p ∈ store, t ∈ p.2

/-- All five accumulators hold only admissible transactions. -/
def BucketsOK (store : BudgetStore) (b : Buckets) : Prop :=
  (∀ e ∈ b.byId, (∀ pe ∈ e.2.personal, ∀ t ∈ pe.2, GoodTxn store t) ∧
    (∀ se ∈ e.2.shared, GoodTxn store se.1)) ∧
  (∀ e ∈ b.unlinkedPersonal, ∀ t ∈ e.2, GoodTxn store t) ∧
  (∀ e ∈ b.unlinkedShared, ∀ t ∈ e.2, GoodTxn store t) ∧
  (∀ e ∈ b.linkedPersonal, ∀ p ∈ e.2, GoodTxn store p.1) ∧
  (∀ e ∈ b.linkedShared, ∀ p ∈ e.2, GoodTxn store p.1)

/-! ## Helper lemmas: takeWhile/dropWhile over appends, splitting on dashes -/

theorem takeWhile_append_neg {α : Type} {p : α → Bool} {x : α}
    (hx : p x = false) (l r : List α) :
    (l ++ x :: r).takeWhile p = l.takeWhile p := by
  induction l with
  | nil => simp [List.takeWhile, hx]
  | cons a l ih =>
    simp only [List.cons_append, List.takeWhile]
    cases p a <;> simp [ih]

theorem dropWhile_append_neg {α : Type} {p : α → Bool} {x : α}
    (hx : p x = false) (l r : List α) :
    (l ++ x :: r).dropWhile p = l.dropWhile p ++ x :: r := by
  induction l with
  | nil => simp [List.dropWhile, hx]
  | cons a l ih =>
    simp only [List.cons_append, List.dropWhile]
    cases p a <;> simp [ih]

theorem takeWhile_eq_self_of_all {α : Type} {p : α → Bool} {l : List α}
    (h : ∀ c ∈ l, p c = true) : l.takeWhile p = l := by
  induction l with
  | nil => rfl
  | cons a l ih =>
    simp only [List.takeWhile, h a (by simp)]
    exact congrArg (a :: ·) (ih fun c hc => h c (by simp [hc]))

theorem dropWhile_eq_nil_of_all {α : Type} {p : α → Bool} {l : List α}
    (h : ∀ c ∈ l, p c = true) : l.dropWhile p = [] := by
  induction l with
  | nil => rfl
  | cons a l ih =>
    simp only [List.dropWhile, h a (by simp)]
    exact ih fun c hc => h c (by simp [hc])

theorem isIdChar_hash : isIdChar '#' = false := by decide

theorem isIdChar_space : isIdChar ' ' = false := by decide

/-- `tagAt` does not depend on anything after the first non-identifier
character. -/
theorem tagAt_append_congr {x : Char} (hx : isIdChar x = false)
    (l r r2 : List Char) : tagAt (l ++ x :: r) = tagAt (l ++ x :: r2) := by
  simp only [tagAt, takeWhile_append_neg hx, dropWhile_append_neg hx]
  cases l.dropWhile isIdChar <;> simp

/-- Extending a position with no match by a non-identifier, non-delimiter
character and anything after it still gives no match at that position. -/
theorem tagAt_append_of_false {x : Char} (hx : isIdChar x = false)
    (hxh : x ≠ '#') {l : List Char} (h : tagAt l = false) (r : List Char) :
    tagAt (l ++ x :: r) = false := by
  simp only [tagAt, takeWhile_append_neg hx, dropWhile_append_neg hx]
  cases hdw : l.dropWhile isIdChar with
  | nil => simp [hxh]
  | cons h0 t0 =>
    simp only [tagAt, hdw] at h
    simpa using h

theorem splitDash_of_no_dash {l : List Char} (h : ('-') ∉ l) :
    splitDash l = [l] := by
  induction l with
  | nil => rfl
  | cons c t ih =>
    have hc : ¬c = '-' := fun hc => h (by simp [hc])
    have ht := ih (fun hm => h (by simp [hm]))
    simp [splitDash, hc, ht]

theorem splitDash_append {l : List Char} (h : ('-') ∉ l) (r : List Char) :
    splitDash (l ++ '-' :: r) = l :: splitDash r := by
  induction l with
  | nil => simp [splitDash]
  | cons c t ih =>
    have hc : ¬c = '-' := fun hc => h (by simp [hc])
    have ht := ih (fun hm => h (by simp [hm]))
    simp only [List.cons_append, splitDash, if_neg hc]
    rw [show t.append ('-' :: r) = t ++ '-' :: r from rfl, ht]

/-! ## Helper lemmas: structure of the leftmost tag match -/

/-- A successful `findTag` decomposes the input around a delimited nonempty
identifier run. -/
theorem findTag_eq_some {xs p cap suf : List Char}
    (h : findTag xs = some (p, cap, suf)) :
    xs = p ++ '#' :: (cap ++ '#' :: suf) ∧ cap ≠ [] ∧
      ∀ c ∈ cap, isIdChar c = true := by
  induction xs generalizing p with
  | nil => simp [findTag] at h
  | cons c rest ih =>
    rw [findTag] at h
    by_cases hcond : ((c == '#') && tagAt rest) = true
    · rw [if_pos hcond] at h
      rw [Bool.and_eq_true, beq_iff_eq] at hcond
      obtain ⟨hc, htag⟩ := hcond
      rw [tagAt, Bool.and_eq_true, beq_iff_eq] at htag
      obtain ⟨hne, hhead⟩ := htag
      simp only [Option.some.injEq, Prod.mk.injEq] at h
      obtain ⟨hp, hcap, hsuf⟩ := h
      subst hp hc
      cases hdw : rest.dropWhile isIdChar with
      | nil => rw [hdw] at hhead; simp at hhead
      | cons d dt =>
        rw [hdw] at hhead hsuf
        simp only [List.head?] at hhead
        injection hhead with hd
        subst hd
        refine ⟨?_, ?_, ?_⟩
        · have hsplit := List.takeWhile_append_dropWhile isIdChar rest
          rw [hdw] at hsplit
          simp only [List.nil_append, ← hcap, ← hsuf, List.tail]
          rw [hsplit]
        · rw [← hcap]
          simpa using hne
        · intro x hx
          rw [← hcap] at hx
          exact List.mem_takeWhile_imp hx
    · rw [if_neg hcond] at h
      cases hr : findTag rest with
      | none => rw [hr] at h; exact absurd h (by simp)
      | some t3 =>
        obtain ⟨p2, cap2, suf2⟩ := t3
        rw [hr] at h
        simp only [Option.some.injEq, Prod.mk.injEq] at h
        obtain ⟨hp, hcap, hsuf⟩ := h
        subst hcap hsuf
        obtain ⟨h1, h2, h3⟩ := ih hr
        subst hp
        exact ⟨by rw [List.cons_append, ← h1], h2, h3⟩

/-- A delimited nonempty identifier run at the head of the input is the
match. -/
theorem findTag_cons_hash {id suf : List Char} (hne : id ≠ [])
    (hid : ∀ c ∈ id, isIdChar c = true) :
    findTag ('#' :: (id ++ '#' :: suf)) = some ([], id, suf) := by
  have htw : (id ++ '#' :: suf).takeWhile isIdChar = id := by
    rw [takeWhile_append_neg isIdChar_hash]
    exact takeWhile_eq_self_of_all hid
  have hdw : (id ++ '#' :: suf).dropWhile isIdChar = '#' :: suf := by
    rw [dropWhile_append_neg isIdChar_hash]
    rw [dropWhile_eq_nil_of_all hid, List.nil_append]
  have hcond : (('#' == '#') && tagAt (id ++ '#' :: suf)) = true := by
    rw [tagAt, htw, hdw]
    simp [hne]
  rw [findTag, if_pos hcond, htw, hdw]
  rfl

/-- Replacing the identifier of the leftmost match by another valid
identifier leaves the match location unchanged. -/
theorem findTag_stable {xs p cap suf id : List Char}
    (h : findTag xs = some (p, cap, suf)) (hne : id ≠ [])
    (hid : ∀ c ∈ id, isIdChar c = true) :
    findTag (p ++ '#' :: (id ++ '#' :: suf)) = some (p, id, suf) := by
  induction xs generalizing p with
  | nil => simp [findTag] at h
  | cons c rest ih =>
    rw [findTag] at h
    by_cases hcond : ((c == '#') && tagAt rest) = true
    · rw [if_pos hcond] at h
      simp only [Option.some.injEq, Prod.mk.injEq] at h
      obtain ⟨hp, _, _⟩ := h
      subst hp
      rw [List.nil_append]
      exact findTag_cons_hash hne hid
    · rw [if_neg hcond] at h
      cases hr : findTag rest with
      | none => rw [hr] at h; exact absurd h (by simp)
      | some t3 =>
        obtain ⟨p2, cap2, suf2⟩ := t3
        rw [hr] at h
        simp only [Option.some.injEq, Prod.mk.injEq] at h
        obtain ⟨hp, hcap, hsuf⟩ := h
        rw [hcap, hsuf] at hr
        subst hp
        obtain ⟨h1, _, _⟩ := findTag_eq_some hr
        have hih := ih hr
        have hcond2 : ((c == '#') && tagAt (p2 ++ '#' :: (id ++ '#' :: suf))) = false := by
          have heq : tagAt (p2 ++ '#' :: (id ++ '#' :: suf)) =
              tagAt (p2 ++ '#' :: (cap ++ '#' :: suf)) :=
            tagAt_append_congr isIdChar_hash p2 _ _
          by_cases hch : (c == '#') = true
          · rw [Bool.and_eq_true] at hcond
            push_neg at hcond
            have htg := hcond hch
            rw [heq, ← h1, hch, Bool.true_and]
            exact Bool.eq_false_iff.mpr htg
          · simp [Bool.eq_false_iff.mpr hch]
        rw [List.cons_append, findTag, if_neg (by simp [hcond2]), hih]

/-- Appending a space and a tagged block to a memo with no match puts the
leftmost match inside the appended block. -/
theorem findTag_append_space {xs zs p cap suf : List Char}
    (h : findTag xs = none) (hz : findTag zs = some (p, cap, suf)) :
    findTag (xs ++ ' ' :: zs) = some (xs ++ ' ' :: p, cap, suf) := by
  induction xs with
  | nil =>
    rw [List.nil_append, findTag]
    have : ((' ' == '#') && tagAt zs) = false := by simp
    rw [if_neg (by simp [this]), hz]
    rfl
  | cons c rest ih =>
    rw [findTag] at h
    by_cases hcond : ((c == '#') && tagAt rest) = true
    · rw [if_pos hcond] at h; exact absurd h (by simp)
    · rw [if_neg hcond] at h
      have hrest : findTag rest = none := by
        cases hr : findTag rest with
        | none => rfl
        | some t3 => obtain ⟨a, b, d⟩ := t3; rw [hr] at h; exact absurd h (by simp)
      have hih := ih hrest
      have hcond2 : ((c == '#') && tagAt (rest ++ ' ' :: zs)) = false := by
        by_cases hch : (c == '#') = true
        · rw [Bool.and_eq_true] at hcond
          push_neg at hcond
          have htg := hcond hch
          cases hdw : rest.dropWhile isIdChar with
          | nil =>
            have := tagAt_append_of_false isIdChar_space (by decide)
              (l := rest) ?_ zs
            · simp [this]
            · rw [tagAt, hdw]
              simp
          | cons d dt =>
            have heq : tagAt (rest ++ ' ' :: zs) = tagAt rest := by
              rw [tagAt, tagAt, takeWhile_append_neg isIdChar_space,
                dropWhile_append_neg isIdChar_space, hdw]
              simp
            simp [heq, Bool.eq_false_iff.mpr htg]
        · simp [Bool.eq_false_iff.mpr hch]
      rw [List.cons_append, findTag, if_neg (by simp [hcond2]), hih]
      rfl

/-! ## Helper lemmas: round trip of upsert and extract -/

theorem string_mk_data (s : String) : String.mk s.data = s := rfl

theorem formatIdTag_data (id : String) :
    (formatIdTag id).data = '#' :: (id.data ++ '#' :: []) := by
  simp [formatIdTag, String.data_append]

/-- Core round trip: upserting a nonempty identifier over the regex alphabet
into any memo makes it the extracted identifier. -/
theorem extractId_appendIdToMemo {memo id : String} (hne : id.data ≠ [])
    (hid : ∀ c ∈ id.data, isIdChar c = true) :
    extractId (appendIdToMemo memo id) = some id := by
  simp only [appendIdToMemo]
  by_cases hm : memo = ""
  · rw [if_pos hm]
    simp only [extractId, formatIdTag_data]
    rw [findTag_cons_hash hne hid]
  · rw [if_neg hm]
    cases hf : findTag memo.data with
    | some t3 =>
      obtain ⟨p, cap, suf⟩ := t3
      have hl : (p ++ (formatIdTag id).data ++ suf) =
          p ++ '#' :: (id.data ++ '#' :: suf) := by
        rw [formatIdTag_data]
        simp [List.append_assoc]
      simp only [extractId, string_mk_data]
      rw [hl, findTag_stable hf hne hid]
    | none =>
      have hz : findTag (formatIdTag id).data = some ([], id.data, []) := by
        rw [formatIdTag_data]
        exact findTag_cons_hash hne hid
      have hl : (memo ++ " " ++ formatIdTag id).data =
          memo.data ++ ' ' :: (formatIdTag id).data := by
        simp [String.data_append]
      simp only [extractId]
      rw [show (memo ++ " " ++ formatIdTag id).data =
        memo.data ++ ' ' :: (formatIdTag id).data from hl,
        findTag_append_space hf hz]

/-! ## Helper lemmas: the three generators emit identifiers over the regex
alphabet -/

theorem ID_CHARS_idChar : ∀ c ∈ ID_CHARS, isIdChar c = true := by decide

theorem generateId_good (picks : Fin 6 → Fin 32) :
    (generateId picks).data ≠ [] ∧
      ∀ c ∈ (generateId picks).data, isIdChar c = true := by
  constructor
  · simp [generateId, List.finRange]
  · intro c hc
    simp only [generateId, string_mk_data, List.mem_map] at hc
    obtain ⟨i, _, hi⟩ := hc
    exact ID_CHARS_idChar c (hi ▸ List.get_mem ..)

theorem generateBalancingId_data (picks : Fin 6 → Fin 32) :
    (generateBalancingId picks).data = 'B' :: '-' :: (generateId picks).data := by
  simp [generateBalancingId, String.data_append]

theorem generateBalancingId_good (picks : Fin 6 → Fin 32) :
    (generateBalancingId picks).data ≠ [] ∧
      ∀ c ∈ (generateBalancingId picks).data, isIdChar c = true := by
  obtain ⟨_, h2⟩ := generateId_good picks
  rw [generateBalancingId_data]
  refine ⟨by simp, ?_⟩
  intro c hc
  rcases hc with _ | ⟨_, hc⟩
  · decide
  · rcases hc with _ | ⟨_, hc⟩
    · decide
    · exact h2 c hc

theorem digitChar_isDigit {n : Nat} (h : n < 10) :
    (Nat.digitChar n).isDigit = true := by
  interval_cases n <;> decide

theorem toDigitsCore_digits :
    ∀ (fuel n : Nat) (acc : List Char), (∀ c ∈ acc, c.isDigit = true) →
      ∀ c ∈ Nat.toDigitsCore 10 fuel n acc, c.isDigit = true := by
  intro fuel
  induction fuel with
  | zero =>
    intro n acc hacc c hc
    exact hacc c hc
  | succ fuel ih =>
    intro n acc hacc c hc
    rw [Nat.toDigitsCore] at hc
    have hd : ∀ x ∈ Nat.digitChar (n % 10) :: acc, x.isDigit = true := by
      intro x hx
      rcases hx with _ | ⟨_, hx⟩
      · exact digitChar_isDigit (Nat.mod_lt n (by norm_num))
      · exact hacc x hx
    by_cases hz : n / 10 = 0
    · simp only [hz, if_pos rfl] at hc
      exact hd c hc
    · simp only [if_neg hz] at hc
      exact ih (n / 10) _ hd c hc

theorem toDigitsCore_ne_nil :
    ∀ (fuel n : Nat) (acc : List Char), acc ≠ [] ∨ 0 < fuel →
      Nat.toDigitsCore 10 fuel n acc ≠ [] := by
  intro fuel
  induction fuel with
  | zero =>
    intro n acc hne
    rcases hne with hne | hne
    · exact hne
    · exact absurd hne (by simp)
  | succ fuel ih =>
    intro n acc _
    rw [Nat.toDigitsCore]
    by_cases hz : n / 10 = 0
    · simp [hz]
    · simp only [if_neg hz]
      exact ih (n / 10) _ (Or.inl (by simp))

theorem repr_data (n : Nat) : (Nat.repr n).data = Nat.toDigits 10 n := rfl

theorem repr_digits (n : Nat) : ∀ c ∈ (Nat.repr n).data, c.isDigit = true := by
  rw [repr_data, Nat.toDigits]
  exact toDigitsCore_digits (n + 1) n [] (by simp)

theorem repr_ne_nil (n : Nat) : (Nat.repr n).data ≠ [] := by
  rw [repr_data, Nat.toDigits]
  exact toDigitsCore_ne_nil (n + 1) n [] (Or.inr (by simp))

theorem isDigit_isIdChar {c : Char} (h : c.isDigit = true) :
    isIdChar c = true := by
  rw [Char.isDigit] at h
  simp only [Bool.and_eq_true, decide_eq_true_eq] at h
  rw [isIdChar]
  simp only [Bool.or_eq_true, Bool.and_eq_true, decide_eq_true_eq]
  exact Or.inl (Or.inr ⟨h.1, h.2⟩)

theorem isDigit_ne_dash {c : Char} (h : c.isDigit = true) : c ≠ '-' := by
  intro hc
  subst hc
  exact absurd h (by decide)

theorem padStart2_digits {s : String} (hs : ∀ c ∈ s.data, c.isDigit = true) :
    ∀ c ∈ (padStart2 s).data, c.isDigit = true := by
  intro c hc
  rw [padStart2] at hc
  by_cases h2 : 2 ≤ s.length
  · exact hs c (by simpa [h2] using hc)
  · rw [if_neg h2] at hc
    rw [String.data_append] at hc
    rcases List.mem_append.mp hc with hc | hc
    · have : c = '0' := by
        simpa using List.eq_of_mem_replicate (by simpa using hc)
      subst this
      decide
    · exact hs c hc

theorem padStart2_ne_nil {s : String} (hs : s.data ≠ []) :
    (padStart2 s).data ≠ [] := by
  rw [padStart2]
  by_cases h2 : 2 ≤ s.length
  · simpa [h2] using hs
  · rw [if_neg h2, String.data_append]
    simp [hs]

theorem mk_data (l : List Char) : (String.mk l).data = l := rfl

theorem sliceLast2_digits {s : String} (hs : ∀ c ∈ s.data, c.isDigit = true) :
    ∀ c ∈ (sliceLast2 s).data, c.isDigit = true := by
  intro c hc
  rw [sliceLast2, mk_data] at hc
  exact hs c (List.mem_of_mem_drop hc)

theorem sliceLast2_ne_nil {s : String} (hs : s.data ≠ []) :
    (sliceLast2 s).data ≠ [] := by
  rw [sliceLast2, mk_data]
  rw [Ne, List.drop_eq_nil_iff]
  have : 0 < s.data.length := List.length_pos.mpr hs
  omega

theorem generateMonthlyId_data (month year : Nat) :
    (generateMonthlyId month year).data =
      'M' :: '-' :: ((padStart2 (Nat.repr month)).data ++
        '-' :: (sliceLast2 (Nat.repr year)).data) := by
  simp [generateMonthlyId, String.data_append]

theorem generateMonthlyId_good (month year : Nat) :
    (generateMonthlyId month year).data ≠ [] ∧
      ∀ c ∈ (generateMonthlyId month year).data, isIdChar c = true := by
  rw [generateMonthlyId_data]
  refine ⟨by simp, ?_⟩
  intro c hc
  rcases hc with _ | ⟨_, hc⟩
  · decide
  · rcases hc with _ | ⟨_, hc⟩
    · decide
    · rcases List.mem_append.mp hc with hc | hc
      · exact isDigit_isIdChar (padStart2_digits (repr_digits month) c hc)
      · rcases hc with _ | ⟨_, hc⟩
        · decide
        · exact isDigit_isIdChar (sliceLast2_digits (repr_digits year) c hc)

/-! ## Helper lemmas: keyed update and erase on transaction arrays -/

theorem stripToCacheFields_eq (t : Txn) : stripToCacheFields t = t := rfl

theorem mem_setById_self (l : List Txn) (x : String) (v : Txn) :
    v ∈ setById l x v := by
  induction l with
  | nil => simp [setById]
  | cons t ts ih =>
    rw [setById]
    by_cases h : t.id = x <;> simp [h, ih]

theorem mem_of_mem_setById {l : List Txn} {x : String} {v r : Txn}
    (h : r ∈ setById l x v) : r = v ∨ r ∈ l := by
  induction l with
  | nil => simpa [setById] using h
  | cons t ts ih =>
    rw [setById] at h
    by_cases ht : t.id = x
    · rw [if_pos ht] at h
      rcases List.mem_cons.mp h with h | h
      · exact Or.inl h
      · exact Or.inr (List.mem_cons.mpr (Or.inr h))
    · rw [if_neg ht] at h
      rcases List.mem_cons.mp h with h | h
      · exact Or.inr (List.mem_cons.mpr (Or.inl h))
      · rcases ih h with h | h
        · exact Or.inl h
        · exact Or.inr (List.mem_cons.mpr (Or.inr h))

theorem mem_setById_of_ne {l : List Txn} {x : String} {v r : Txn}
    (h : r ∈ l) (hne : r.id ≠ x) : r ∈ setById l x v := by
  induction l with
  | nil => simp at h
  | cons t ts ih =>
    rw [setById]
    rcases List.mem_cons.mp h with h | h
    · subst h
      rw [if_neg hne]
      simp
    · by_cases ht : t.id = x
      · rw [if_pos ht]
        exact List.mem_cons.mpr (Or.inr h)
      · rw [if_neg ht]
        exact List.mem_cons.mpr (Or.inr (ih h))

theorem setById_id_unique {l : List Txn} {x : String} {v : Txn}
    (hnd : (l.map Txn.id).Nodup) (hv : v.id = x) :
    ∀ r ∈ setById l x v, r.id = x → r = v := by
  induction l with
  | nil =>
    intro r hr _
    simpa [setById] using hr
  | cons t ts ih =>
    intro r hr hrx
    rw [setById] at hr
    rw [List.map_cons, List.nodup_cons] at hnd
    by_cases ht : t.id = x
    · rw [if_pos ht] at hr
      rcases List.mem_cons.mp hr with h | h
      · exact h
      · exfalso
        apply hnd.1
        rw [ht, ← hrx]
        exact List.mem_map_of_mem Txn.id h
    · rw [if_neg ht] at hr
      rcases List.mem_cons.mp hr with h | h
      · exact absurd (h ▸ hrx) ht
      · exact ih hnd.2 r h hrx

theorem setById_map_id {l : List Txn} {x : String} {v : Txn} (hv : v.id = x) :
    (setById l x v).map Txn.id =
      if x ∈ l.map Txn.id then l.map Txn.id else l.map Txn.id ++ [x] := by
  induction l with
  | nil => simp [setById, hv]
  | cons t ts ih =>
    rw [setById]
    by_cases ht : t.id = x
    · simp [ht, hv]
    · rw [if_neg ht]
      rw [List.map_cons, List.map_cons, ih]
      by_cases hmem : x ∈ ts.map Txn.id
      · simp [hmem, Ne.symm ht]
      · simp [hmem, Ne.symm ht]

theorem setById_nodup {l : List Txn} {x : String} {v : Txn}
    (hnd : (l.map Txn.id).Nodup) (hv : v.id = x) :
    ((setById l x v).map Txn.id).Nodup := by
  rw [setById_map_id hv]
  by_cases hmem : x ∈ l.map Txn.id
  · simpa [hmem] using hnd
  · rw [if_neg hmem]
    simpa [List.nodup_append, hmem] using hnd

theorem mem_of_mem_eraseById {l : List Txn} {x : String} {r : Txn}
    (h : r ∈ eraseById l x) : r ∈ l := by
  induction l with
  | nil => simpa [eraseById] using h
  | cons t ts ih =>
    rw [eraseById] at h
    by_cases ht : t.id = x
    · rw [if_pos ht] at h
      exact List.mem_cons.mpr (Or.inr h)
    · rw [if_neg ht] at h
      rcases List.mem_cons.mp h with h | h
      · exact List.mem_cons.mpr (Or.inl h)
      · exact List.mem_cons.mpr (Or.inr (ih h))

theorem mem_eraseById_of_ne {l : List Txn} {x : String} {r : Txn}
    (h : r ∈ l) (hne : r.id ≠ x) : r ∈ eraseById l x := by
  induction l with
  | nil => simp at h
  | cons t ts ih =>
    rw [eraseById]
    rcases List.mem_cons.mp h with h | h
    · subst h
      rw [if_neg hne]
      simp
    · by_cases ht : t.id = x
      · rw [if_pos ht]
        exact h
      · rw [if_neg ht]
        exact List.mem_cons.mpr (Or.inr (ih h))

theorem eraseById_id_ne {l : List Txn} {x : String}
    (hnd : (l.map Txn.id).Nodup) : ∀ r ∈ eraseById l x, r.id ≠ x := by
  induction l with
  | nil => simp [eraseById]
  | cons t ts ih =>
    intro r hr
    rw [eraseById] at hr
    rw [List.map_cons, List.nodup_cons] at hnd
    by_cases ht : t.id = x
    · intro hrx
      exact absurd (ht ▸ hrx ▸ List.mem_map_of_mem Txn.id hr) (by simpa [ht] using hnd.1)
    · rw [if_neg ht] at hr
      rcases List.mem_cons.mp hr with h | h
      · exact h ▸ ht
      · exact ih hnd.2 r h

theorem eraseById_sublist (l : List Txn) (x : String) :
    (eraseById l x).Sublist l := by
  induction l with
  | nil => simp [eraseById]
  | cons t ts ih =>
    rw [eraseById]
    by_cases ht : t.id = x
    · rw [if_pos ht]
      exact List.sublist_cons_self t ts
    · rw [if_neg ht]
      exact List.Sublist.cons₂ t ih

theorem eraseById_nodup {l : List Txn} {x : String}
    (hnd : (l.map Txn.id).Nodup) : ((eraseById l x).map Txn.id).Nodup :=
  List.Nodup.sublist (List.Sublist.map Txn.id (eraseById_sublist l x)) hnd

theorem countP_id_eq_one {l : List Txn} {r : Txn}
    (hnd : (l.map Txn.id).Nodup) (hr : r ∈ l) :
    l.countP (fun t => t.id == r.id) = 1 := by
  induction l with
  | nil => simp at hr
  | cons t ts ih =>
    rw [List.map_cons, List.nodup_cons] at hnd
    rcases List.mem_cons.mp hr with h | h
    · subst h
      have hz : ts.countP (fun t2 => t2.id == r.id) = 0 := by
        rw [List.countP_eq_zero]
        intro t2 ht2
        simp only [beq_iff_eq]
        intro hid
        exact hnd.1 (hid ▸ List.mem_map_of_mem Txn.id ht2)
      simp [List.countP_cons, hz]
    · have hne : ¬((fun t2 => t2.id == r.id) t = true) := by
        simp only [beq_iff_eq]
        intro hid
        exact hnd.1 (hid ▸ List.mem_map_of_mem Txn.id h)
      rw [List.countP_cons, if_neg hne]
      simpa using ih hnd.2 h

theorem mergeDelta_nil (cache : List Txn) : mergeDelta cache [] = cache := rfl

theorem mergeDelta_cons_eq (cache : List Txn) (d : Txn) (rest : List Txn) :
    mergeDelta cache (d :: rest) =
      mergeDelta (if d.deleted then eraseById cache d.id
        else setById cache d.id (stripToCacheFields d)) rest := rfl

/-- Ids not touched by the delta keep exactly their records. -/
theorem mergeDelta_frozen :
    ∀ (delta cache : List Txn) (x : String), (∀ d ∈ delta, d.id ≠ x) →
      ∀ r : Txn, r.id = x → (r ∈ mergeDelta cache delta ↔ r ∈ cache) := by
  intro delta
  induction delta with
  | nil => intro cache x _ r _; rw [mergeDelta_nil]
  | cons d rest ih =>
    intro cache x hne r hrx
    have hdx : d.id ≠ x := hne d (by simp)
    have hrest : ∀ d2 ∈ rest, d2.id ≠ x := fun d2 h2 => hne d2 (by simp [h2])
    rw [mergeDelta_cons_eq]
    rw [ih _ x hrest r hrx]
    by_cases hdel : d.deleted = true
    · rw [if_pos hdel]
      constructor
      · exact mem_of_mem_eraseById
      · intro h
        exact mem_eraseById_of_ne h (by rw [hrx]; exact fun he => hdx he.symm)
    · rw [if_neg hdel]
      constructor
      · intro h
        rcases mem_of_mem_setById h with h | h
        · exfalso
          apply hdx
          rw [← hrx, h, stripToCacheFields_eq]
        · exact h
      · intro h
        exact mem_setById_of_ne h (by rw [hrx]; exact fun he => hdx he.symm)

/-- Master merge lemma: id uniqueness is preserved, a non-deleted delta record
is the unique record under its id, a deleted delta id is absent, and
untouched cache records are retained. -/
theorem mergeDelta_master :
    ∀ (delta cache : List Txn), (cache.map Txn.id).Nodup →
      (delta.map Txn.id).Nodup →
      ((mergeDelta cache delta).map Txn.id).Nodup ∧
      (∀ d ∈ delta, d.deleted = false →
        stripToCacheFields d ∈ mergeDelta cache delta ∧
        ∀ r ∈ mergeDelta cache delta, r.id = d.id → r = stripToCacheFields d) ∧
      (∀ d ∈ delta, d.deleted = true →
        ∀ r ∈ mergeDelta cache delta, r.id ≠ d.id) ∧
      (∀ r ∈ cache, (∀ d ∈ delta, d.id ≠ r.id) → r ∈ mergeDelta cache delta) := by
  intro delta
  induction delta with
  | nil =>
    intro cache hc _
    refine ⟨by simpa [mergeDelta_nil] using hc, by simp, by simp, ?_⟩
    intro r hr _
    simpa [mergeDelta_nil] using hr
  | cons d rest ih =>
    intro cache hc hd
    rw [List.map_cons, List.nodup_cons] at hd
    have hstep : ((if d.deleted then eraseById cache d.id
        else setById cache d.id (stripToCacheFields d)).map Txn.id).Nodup := by
      by_cases hdel : d.deleted = true
      · rw [if_pos hdel]
        exact eraseById_nodup hc
      · rw [if_neg hdel]
        exact setById_nodup hc rfl
    obtain ⟨ih1, ih2, ih3, ih4⟩ := ih _ hstep hd.2
    have hrest_ne : ∀ d2 ∈ rest, d2.id ≠ d.id := by
      intro d2 h2 he
      exact hd.1 (he ▸ List.mem_map_of_mem Txn.id h2)
    refine ⟨by rw [mergeDelta_cons_eq]; exact ih1, ?_, ?_, ?_⟩
    · intro d2 hd2 hdel2
      rcases List.mem_cons.mp hd2 with h | h
      · subst h
        rw [mergeDelta_cons_eq, if_neg (by simp [hdel2])]
        have hmem : stripToCacheFields d2 ∈
            setById cache d2.id (stripToCacheFields d2) := mem_setById_self ..
        have hfrozen := mergeDelta_frozen rest
          (setById cache d2.id (stripToCacheFields d2)) d2.id hrest_ne
        constructor
        · exact (hfrozen (stripToCacheFields d2) rfl).mpr hmem
        · intro r hr hrid
          have hr2 : r ∈ setById cache d2.id (stripToCacheFields d2) :=
            (hfrozen r hrid).mp hr
          exact setById_id_unique hc rfl r hr2 hrid
      · rw [mergeDelta_cons_eq]
        exact ih2 d2 h hdel2
    · intro d2 hd2 hdel2
      rcases List.mem_cons.mp hd2 with h | h
      · subst h
        intro r hr hrid
        rw [mergeDelta_cons_eq, if_pos hdel2] at hr
        have hfrozen := mergeDelta_frozen rest (eraseById cache d2.id) d2.id
          hrest_ne
        have hr2 : r ∈ eraseById cache d2.id := (hfrozen r hrid).mp hr
        exact eraseById_id_ne hc r hr2 hrid
      · intro r hr
        rw [mergeDelta_cons_eq] at hr
        exact ih3 d2 h hdel2 r hr
    · intro r hr hne
      have hdr : d.id ≠ r.id := hne d (by simp)
      have hstep_mem : r ∈ (if d.deleted then eraseById cache d.id
          else setById cache d.id (stripToCacheFields d)) := by
        by_cases hdel : d.deleted = true
        · rw [if_pos hdel]
          exact mem_eraseById_of_ne hr (fun he => hdr he.symm)
        · rw [if_neg hdel]
          exact mem_setById_of_ne hr (fun he => hdr he.symm)
      rw [mergeDelta_cons_eq]
      exact ih4 r hstep_mem (fun d2 h2 => hne d2 (by simp [h2]))

/-! ## Claim theorems -/

/-- C3: for every tag produced by one of the three generators and every
starting note (including the empty note and notes already holding a delimited
tag), upserting the tag into the note and extracting recovers exactly that
tag: `appendIdToMemo` replaces an existing first delimited tag in place or
appends the formatted tag after a space, and `extractId` then returns the
tag. -/
theorem C3_extract_upsert_roundtrip (note t : String)
    (hgen : (∃ picks, t = generateId picks) ∨
      (∃ picks, t = generateBalancingId picks) ∨
      (∃ month year, t = generateMonthlyId month year)) :
    extractId (appendIdToMemo note t) = some t := by
  rcases hgen with ⟨picks, ht⟩ | ⟨picks, ht⟩ | ⟨month, year, ht⟩
  · obtain ⟨h1, h2⟩ := generateId_good picks
    exact extractId_appendIdToMemo (ht ▸ h1) (ht ▸ h2)
  · obtain ⟨h1, h2⟩ := generateBalancingId_good picks
    exact extractId_appendIdToMemo (ht ▸ h1) (ht ▸ h2)
  · obtain ⟨h1, h2⟩ := generateMonthlyId_good month year
    exact extractId_appendIdToMemo (ht ▸ h1) (ht ▸ h2)

/-- Witness for C3: a balancing tag upserted into a note that already carries
a delimited tag replaces it and is extracted back. -/
theorem C3_extract_upsert_roundtrip_witness :
    extractId (appendIdToMemo ("Rent #STALE9# march") (generateBalancingId (fun _ => 0))) =
      some (generateBalancingId (fun _ => 0)) :=
  C3_extract_upsert_roundtrip ("Rent #STALE9# march") (generateBalancingId (fun _ => 0))
    (Or.inr (Or.inl ⟨fun _ => 0, rfl⟩))

/-- C9: `parseMonthlyId` splits on dashes and requires exactly 3 parts; every
well-shaped tag `M-mm-yy` over decimal digits yields
`{month := int mm, year := 2000 + int yy}` (so `M-01-26` gives month 1, year
2026, and the out-of-range month of `M-13-26` is accepted unvalidated), while
any identifier that does not start with `M-` (such as `A3K9M2`) or does not
split into exactly 3 parts yields `none`. -/
theorem C9_parseMonthlyId_spec :
    (∀ s1 s2 : List Char, s1 ≠ [] → s2 ≠ [] →
      (∀ c ∈ s1, c.isDigit = true) → (∀ c ∈ s2, c.isDigit = true) →
      parseMonthlyId (String.mk ('M' :: '-' :: (s1 ++ '-' :: s2))) =
        some (some (decValue s1), some (2000 + decValue s2))) ∧
    parseMonthlyId ("M-01-26") = some (some 1, some 2026) ∧
    parseMonthlyId ("M-13-26") = some (some 13, some 2026) ∧
    parseMonthlyId ("A3K9M2") = none ∧
    (∀ id : String, isMonthlyId id = false → parseMonthlyId id = none) ∧
    (∀ id : String, (splitDash id.data).length ≠ 3 → parseMonthlyId id = none) := by
  refine ⟨?_, by decide, by decide, by decide, ?_, ?_⟩
  · intro s1 s2 h1 h2 hd1 hd2
    have hnd1 : ('-') ∉ s1 := fun hm => isDigit_ne_dash (hd1 _ hm) rfl
    have hnd2 : ('-') ∉ s2 := fun hm => isDigit_ne_dash (hd2 _ hm) rfl
    have hsplit : splitDash ('M' :: '-' :: (s1 ++ '-' :: s2)) =
        [['M'], s1, s2] := by
      have hs2 : splitDash (s1 ++ '-' :: s2) = s1 :: splitDash s2 :=
        splitDash_append hnd1 s2
      have hs3 : splitDash s2 = [s2] := splitDash_of_no_dash hnd2
      simp [splitDash, hs2, hs3]
    have hmon : isMonthlyId (String.mk ('M' :: '-' :: (s1 ++ '-' :: s2))) = true := by
      rw [isMonthlyId, mk_data]
      rfl
    have hp1 : parseIntJs s1 = some (decValue s1) := by
      rw [parseIntJs, takeWhile_eq_self_of_all hd1]
      simp [h1]
    have hp2 : parseIntJs s2 = some (decValue s2) := by
      rw [parseIntJs, takeWhile_eq_self_of_all hd2]
      simp [h2]
    rw [parseMonthlyId, if_pos hmon, mk_data, hsplit]
    simp [hp1, hp2]
  · intro id hm
    rw [parseMonthlyId, if_neg (by simp [hm])]
  · intro id hlen
    rw [parseMonthlyId]
    by_cases hm : isMonthlyId id = true
    · rw [if_pos hm]
      cases hs : splitDash id.data with
      | nil => rfl
      | cons a t1 =>
        cases t1 with
        | nil => rfl
        | cons b t2 =>
          cases t2 with
          | nil => rfl
          | cons c t3 =>
            cases t3 with
            | nil => exact absurd (by rw [hs]; rfl) hlen
            | cons d t4 => rfl
    · rw [if_neg hm]

/-- Witness for C9: the general well-shaped clause applied to `M-07-31`. -/
theorem C9_parseMonthlyId_spec_witness :
    parseMonthlyId (String.mk ('M' :: '-' :: (['0', '7'] ++ '-' :: ['3', '1']))) =
      some (some (decValue ['0', '7']), some (2000 + decValue ['3', '1'])) :=
  C9_parseMonthlyId_spec.1 ['0', '7'] ['3', '1'] (by decide) (by decide)
    (by decide) (by decide)

theorem monthly_not_balancing {id : String} (h : isMonthlyId id = true) :
    isBalancingId id = false := by
  rw [isMonthlyId] at h
  rw [isBalancingId]
  rcases hd : id.data with _ | ⟨c1, _ | ⟨c2, t2⟩⟩
  · rfl
  · rfl
  · rw [hd] at h
    simp only [Bool.and_eq_true, beq_iff_eq] at h
    obtain ⟨h1, _⟩ := h
    subst h1
    simp

/-- C1: the derived `complete` flag of a tag bucket.  For a balancing tag it
holds exactly when the total personal-side count across members and the
shared-side count both equal the configured member count; for a monthly tag
exactly when the shared side is nonempty; for a regular tag exactly when both
sides are nonempty.  In particular, with member count 2, a balancing bucket
with 1 personal and 2 shared transactions is incomplete and one with 2
personal and 2 shared is complete. -/
theorem C1_isLinkComplete_spec (id : String) (g : LinkGroup) (n : Nat) :
    ((isBalancingId id = true →
      (isLinkComplete id g n = true ↔
        personalFlatCount g = n ∧ g.shared.length = n)) ∧
    (isMonthlyId id = true →
      (isLinkComplete id g n = true ↔ 1 ≤ g.shared.length)) ∧
    (isBalancingId id = false → isMonthlyId id = false →
      (isLinkComplete id g n = true ↔
        1 ≤ personalFlatCount g ∧ 1 ≤ g.shared.length))) ∧
    (isLinkComplete ("B-AAAAAA")
      (LinkGroup.mk [(("a"), [mkTxn ("p1") ("2026-01-02") (-500) ("#B-AAAAAA#") none none false])]
        [(mkTxn ("s1") ("2026-01-02") (-500) ("#B-AAAAAA#") none none false, "a"),
         (mkTxn ("s2") ("2026-01-02") 500 ("#B-AAAAAA#") none none false, "b")]) 2 = false) ∧
    (isLinkComplete ("B-AAAAAA")
      (LinkGroup.mk [(("a"), [mkTxn ("p1") ("2026-01-02") (-500) ("#B-AAAAAA#") none none false]),
        (("b"), [mkTxn ("p2") ("2026-01-02") 500 ("#B-AAAAAA#") none none false])]
        [(mkTxn ("s1") ("2026-01-02") (-500) ("#B-AAAAAA#") none none false, "a"),
         (mkTxn ("s2") ("2026-01-02") 500 ("#B-AAAAAA#") none none false, "b")]) 2 = true) := by
  refine ⟨⟨?_, ?_, ?_⟩, by decide, by decide⟩
  · intro hb
    rw [isLinkComplete, if_pos hb]
    simp [Bool.and_eq_true]
  · intro hm
    rw [isLinkComplete, if_neg (by simp [monthly_not_balancing hm]), if_pos hm]
    simp
  · intro hb hm
    rw [isLinkComplete, if_neg (by simp [hb]), if_neg (by simp [hm])]
    simp [Bool.and_eq_true]

/-- Witness for C1: the balancing clause applied to a concrete 2-personal,
2-shared bucket with member count 2. -/
theorem C1_isLinkComplete_spec_witness :
    isLinkComplete ("B-AAAAAA")
      (LinkGroup.mk [(("a"), [mkTxn ("p1") ("2026-01-02") (-500) ("#B-AAAAAA#") none none false]),
        (("b"), [mkTxn ("p2") ("2026-01-02") 500 ("#B-AAAAAA#") none none false])]
        [(mkTxn ("s1") ("2026-01-02") (-500) ("#B-AAAAAA#") none none false, "a"),
         (mkTxn ("s2") ("2026-01-02") 500 ("#B-AAAAAA#") none none false, "b")]) 2 = true ↔
      personalFlatCount (LinkGroup.mk [(("a"), [mkTxn ("p1") ("2026-01-02") (-500) ("#B-AAAAAA#") none none false]),
        (("b"), [mkTxn ("p2") ("2026-01-02") 500 ("#B-AAAAAA#") none none false])]
        [(mkTxn ("s1") ("2026-01-02") (-500) ("#B-AAAAAA#") none none false, "a"),
         (mkTxn ("s2") ("2026-01-02") 500 ("#B-AAAAAA#") none none false, "b")]) = 2 ∧
      (LinkGroup.mk [(("a"), [mkTxn ("p1") ("2026-01-02") (-500) ("#B-AAAAAA#") none none false]),
        (("b"), [mkTxn ("p2") ("2026-01-02") 500 ("#B-AAAAAA#") none none false])]
        [(mkTxn ("s1") ("2026-01-02") (-500) ("#B-AAAAAA#") none none false, "a"),
         (mkTxn ("s2") ("2026-01-02") 500 ("#B-AAAAAA#") none none false, "b")]).shared.length = 2 :=
  (C1_isLinkComplete_spec ("B-AAAAAA") _ 2).1.1 (by decide)

/-- C5: `isGoodMatch` holds exactly when the amount difference is below 100
milliunits, i.e. below 0.1 display-currency units (`fromMilliunits` of the
difference below 1/10), and the date difference is at most 7 days.  Equal
amounts with a 7-day gap match, an 8-day gap does not, and a 0.11-unit
difference (110 milliunits, `toMilliunits (11/100)`) does not. -/
theorem C5_isGoodMatch_spec :
    ((∀ a b : MatchTxn, isGoodMatch (some a) (some b) = true ↔
      (fromMilliunits ((a.amount - b.amount).natAbs) < 1/10 ∧
        (a.date - b.date).natAbs ≤ 7)) ∧
    (∀ a b : MatchTxn, a.amount = b.amount → (a.date - b.date).natAbs = 7 →
      isGoodMatch (some a) (some b) = true) ∧
    (∀ a b : MatchTxn, (a.date - b.date).natAbs = 8 →
      isGoodMatch (some a) (some b) = false) ∧
    (∀ a b : MatchTxn, (a.amount - b.amount).natAbs = 110 →
      isGoodMatch (some a) (some b) = false)) ∧
    toMilliunits (11/100) = 110 ∧ toMilliunits (1/10) = 100 := by
  have key : ∀ m : Nat, (fromMilliunits (m : Int) < 1/10 ↔ m < 100) := by
    intro m
    rw [fromMilliunits]
    rw [div_lt_iff₀ (by norm_num : (0:Rat) < 1000)]
    constructor
    · intro h
      exact_mod_cast (by linarith : ((m : Int) : Rat) < 100)
    · intro h
      have : ((m : Int) : Rat) < 100 := by exact_mod_cast h
      linarith
  refine ⟨⟨?_, ?_, ?_, ?_⟩, by norm_num [toMilliunits], by norm_num [toMilliunits]⟩
  · intro a b
    rw [isGoodMatch]
    simp only [Bool.and_eq_true, decide_eq_true_eq]
    rw [key]
  · intro a b hamt hdate
    rw [isGoodMatch]
    simp [hamt, hdate]
  · intro a b hdate
    rw [isGoodMatch]
    simp [hdate]
  · intro a b hamt
    rw [isGoodMatch]
    simp [hamt]

/-- Witness for C5: equal amounts at a 7-day gap are a good match, through
the equal-amount clause. -/
theorem C5_isGoodMatch_spec_witness :
    isGoodMatch (some (MatchTxn.mk 12500 20484)) (some (MatchTxn.mk 12500 20491)) = true :=
  C5_isGoodMatch_spec.1.2.1 (MatchTxn.mk 12500 20484) (MatchTxn.mk 12500 20491)
    rfl (by decide)

/-- C4 counterexample: the claim quantifies over every flow that creates a
monthly-income transaction, but `Consistency.createMonthlyIncome` issues a
create even when the contribution account already holds a transaction tagged
with that month whose amount equals the requested amount — the reconciliation
search exists only in `Monthly.ensureContributionTransaction`. -/
theorem C4_counterexample :
    createMonthlyIncomeCall
      [mkTxn ("t1") ("2026-01-01") 50000 ("#M-01-26#") none none false]
      true true ("2026-01") 1 2026 50000 =
      some (CreateCall.mk ("2026-01-01") ("#M-01-26#") 50000) ∧
    extractId (mkTxn ("t1") ("2026-01-01") 50000 ("#M-01-26#") none none false).memo =
      some (generateMonthlyId 1 2026) ∧
    (mkTxn ("t1") ("2026-01-01") 50000 ("#M-01-26#") none none false).amount = 50000 := by
  decide

/-- C4 (amended): the reconciliation holds for the
`ensureContributionTransaction` flow — whenever some transaction of the
searched account carries the monthly tag no create is issued, the first
tagged transaction is updated in place exactly when its amount differs and
left untouched otherwise, and a create (tagged, on the first of the month) is
issued exactly when no transaction carries the tag.  The
`Consistency.createMonthlyIncome` flow, by contrast, creates
unconditionally. -/
theorem C4_ensureContribution_spec (transactions : List Txn)
    (monthlyId : String) (amountMilliunits : Int) (monthDate : String)
    (readyToAssignId : Option String) :
    ((∃ t ∈ transactions, extractId t.memo = some monthlyId) →
      ∀ d m a r, ensureContributionAction transactions monthlyId
        amountMilliunits monthDate readyToAssignId ≠ EnsureAction.create d m a r) ∧
    ((∀ t ∈ transactions, extractId t.memo ≠ some monthlyId) →
      ensureContributionAction transactions monthlyId amountMilliunits
        monthDate readyToAssignId =
        EnsureAction.create monthDate ("#" ++ monthlyId ++ "#")
          amountMilliunits readyToAssignId) ∧
    (∀ e, transactions.find? (fun txn => extractId txn.memo == some monthlyId) = some e →
      (e.amount ≠ amountMilliunits →
        ensureContributionAction transactions monthlyId amountMilliunits
          monthDate readyToAssignId = EnsureAction.update e.id amountMilliunits) ∧
      (e.amount = amountMilliunits →
        ensureContributionAction transactions monthlyId amountMilliunits
          monthDate readyToAssignId = EnsureAction.noop)) := by
  refine ⟨?_, ?_, ?_⟩
  · intro hex d m a r
    obtain ⟨t, ht, hid⟩ := hex
    have hsome : (transactions.find?
        (fun txn => extractId txn.memo == some monthlyId)).isSome = true :=
      List.find?_isSome.mpr ⟨t, ht, by simp [hid]⟩
    rw [ensureContributionAction]
    cases hf : transactions.find? (fun txn => extractId txn.memo == some monthlyId) with
    | none => rw [hf] at hsome; simp at hsome
    | some e =>
      by_cases ha : e.amount ≠ amountMilliunits
      · simp [ha]
      · simp [ha]
  · intro hall
    have hnone : transactions.find?
        (fun txn => extractId txn.memo == some monthlyId) = none := by
      rw [List.find?_eq_none]
      intro t ht
      simp [hall t ht]
    rw [ensureContributionAction, hnone]
  · intro e hf
    constructor
    · intro ha
      rw [ensureContributionAction, hf]
      simp [ha]
    · intro ha
      rw [ensureContributionAction, hf]
      simp [ha]

theorem showApiErrorS_warned_false {st : DSState} {msg : String}
    (h : msg.take 50 ∈ st.apiErrorsShown) : (showApiErrorS st msg).2 = false := by
  rw [showApiErrorS]
  rw [if_pos (List.elem_iff.mpr h)]

theorem showApiErrorS_key_mem (st : DSState) (msg : String) :
    msg.take 50 ∈ (showApiErrorS st msg).1.apiErrorsShown := by
  rw [showApiErrorS]
  by_cases h : st.apiErrorsShown.contains (msg.take 50) = true
  · rw [if_pos h]
    exact List.elem_iff.mp h
  · rw [if_neg h]
    simp

/-- C6 counterexample: a ledger whose only cache is a persistent entry with a
nonempty transaction array, last fetched 10 minutes and 1 millisecond ago,
propagates a remote failure to the caller even though a cache exists for the
ledger (the fallback re-reads the persistent tier with the 10-minute window
and so skips stale entries). -/
theorem C6_counterexample :
    (getTransactionsDS
      (DSState.mk none
        (some (StorEntry.mk [mkTxn ("t1") ("2025-01-01") (-500) ("") none none false] 5 none 0))
        false [] false none)
      600001 plainOpts (RemoteResp.err ("boom")) true ("2024-01-01")).result =
      Except.error ("boom") ∧
    (some (StorEntry.mk [mkTxn ("t1") ("2025-01-01") (-500) ("") none none false] 5 none 0)
      ≠ (none : Option StorEntry)) ∧
    [mkTxn ("t1") ("2025-01-01") (-500) ("") none none false] ≠ ([] : List Txn) := by
  exact ⟨rfl, by decide, by decide⟩

/-- C6 (amended): on a remote failure during a full fetch the read serves the
in-process cache when it holds at least one record, else the persistent view
when it is within the 10-minute freshness window and holds at least one
record, and only otherwise rethrows (so a stale or empty persistent entry
does not prevent the throw); the delta-sync branch serves its fresh
persistent view on failure unconditionally; an api-error toast is never
shown twice for the same error kind (first 50 characters of the message),
and an error-path call records its error kind. -/
theorem C6_read_fallback_spec (st : DSState) (now : Nat) (since : String)
    (o : FetchOpts) (msg : String) (wOk : Bool) :
    ((∀ me, st.memCache = some me → me.data ≠ [] →
      (fetchAndCacheDS st now since o (RemoteResp.err msg) wOk).result =
        Except.ok (filterTransactions me.data o)) ∧
    ((st.memCache = none ∨ ∃ me, st.memCache = some me ∧ me.data = []) →
      ∀ sc, getCachedTransactionsS st.storage now (some CACHE_TTL) = some sc →
        sc.transactions ≠ [] →
        (fetchAndCacheDS st now since o (RemoteResp.err msg) wOk).result =
          Except.ok (filterTransactions sc.transactions o)) ∧
    ((st.memCache = none ∨ ∃ me, st.memCache = some me ∧ me.data = []) →
      (getCachedTransactionsS st.storage now (some CACHE_TTL) = none ∨
        (∃ sc, getCachedTransactionsS st.storage now (some CACHE_TTL) = some sc ∧
          sc.transactions = [])) →
      (fetchAndCacheDS st now since o (RemoteResp.err msg) wOk).result =
        Except.error msg)) ∧
    (∀ sc, (deltaBranchDS st now o sc (RemoteResp.err msg)).result =
      Except.ok (filterTransactions sc.transactions o)) ∧
    (msg.take 50 ∈ st.apiErrorsShown →
      (fetchAndCacheDS st now since o (RemoteResp.err msg) wOk).warned = false) ∧
    ((fetchAndCacheDS st now since o (RemoteResp.err msg) wOk).result =
        Except.error msg →
      msg.take 50 ∈
        (fetchAndCacheDS st now since o (RemoteResp.err msg) wOk).state.apiErrorsShown) := by
  cases hs : showApiErrorS st msg with
  | mk sA wA =>
  have hfb_ok : ∀ sc, getCachedTransactionsS st.storage now (some CACHE_TTL) = some sc →
      sc.transactions ≠ [] →
      (fetchFallbackStorage st now o msg).result =
        Except.ok (filterTransactions sc.transactions o) := by
    intro sc hsc hne
    simp only [fetchFallbackStorage, hsc, hs]
    rw [if_pos hne]
  have hfb_err : (getCachedTransactionsS st.storage now (some CACHE_TTL) = none ∨
      (∃ sc, getCachedTransactionsS st.storage now (some CACHE_TTL) = some sc ∧
        sc.transactions = [])) →
      (fetchFallbackStorage st now o msg).result = Except.error msg := by
    intro h
    rcases h with h | ⟨sc, hsc, hemp⟩
    · simp only [fetchFallbackStorage, h, hs]
    · simp only [fetchFallbackStorage, hsc, hs]
      rw [if_neg (by simp [hemp])]
  have hfbW : (fetchFallbackStorage st now o msg).warned = wA := by
    simp only [fetchFallbackStorage, hs]
    cases hsc : getCachedTransactionsS st.storage now (some CACHE_TTL) with
    | some sc =>
      by_cases hne2 : sc.transactions ≠ []
      · simp [hne2]
      · simp [hne2]
    | none => rfl
  have hfbS : (fetchFallbackStorage st now o msg).state.apiErrorsShown =
      sA.apiErrorsShown := by
    simp only [fetchFallbackStorage, hs]
    cases hsc : getCachedTransactionsS st.storage now (some CACHE_TTL) with
    | some sc =>
      by_cases hne2 : sc.transactions ≠ []
      · simp [hne2]
      · simp [hne2]
    | none => rfl
  have hfcW : (fetchAndCacheDS st now since o (RemoteResp.err msg) wOk).warned = wA := by
    simp only [fetchAndCacheDS, hs]
    cases hme : st.memCache with
    | some me =>
      by_cases hne : me.data ≠ []
      · simp [hne]
      · simp [hne, hfbW]
    | none => exact hfbW
  have hfcS : (fetchAndCacheDS st now since o (RemoteResp.err msg) wOk).state.apiErrorsShown =
      sA.apiErrorsShown := by
    simp only [fetchAndCacheDS, hs]
    cases hme : st.memCache with
    | some me =>
      by_cases hne : me.data ≠ []
      · simp [hne]
      · simp [hne, hfbS]
    | none => exact hfbS
  refine ⟨⟨?_, ?_, ?_⟩, ?_, ?_, ?_⟩
  · intro me hme hne
    simp only [fetchAndCacheDS, hme, hs]
    rw [if_pos hne]
  · intro hnomem sc hsc hne
    rcases hnomem with hnomem | ⟨me, hme, hemp⟩
    · simp only [fetchAndCacheDS, hnomem]
      exact hfb_ok sc hsc hne
    · simp only [fetchAndCacheDS, hme]
      rw [if_neg (by simp [hemp])]
      exact hfb_ok sc hsc hne
  · intro hnomem hstor
    rcases hnomem with hnomem | ⟨me, hme, hemp⟩
    · simp only [fetchAndCacheDS, hnomem]
      exact hfb_err hstor
    · simp only [fetchAndCacheDS, hme]
      rw [if_neg (by simp [hemp])]
      exact hfb_err hstor
  · intro sc
    rw [deltaBranchDS]
  · intro hmem
    rw [hfcW]
    have hw := showApiErrorS_warned_false hmem
    rw [hs] at hw
    exact hw
  · intro _
    rw [hfcS]
    have hk := showApiErrorS_key_mem st msg
    rw [hs] at hk
    exact hk

/-- Witness for C6 (amended): a failing full fetch over a nonempty in-process
cache serves that cache. -/
theorem C6_read_fallback_spec_witness :
    (fetchAndCacheDS
      (DSState.mk (some (MemEntry.mk [mkTxn ("t1") ("2025-01-01") (-500) ("") none none false] 0 none))
        none false [] false none)
      50 ("2024-01-01") plainOpts (RemoteResp.err ("boom")) true).result =
      Except.ok (filterTransactions
        [mkTxn ("t1") ("2025-01-01") (-500) ("") none none false] plainOpts) :=
  (C6_read_fallback_spec
    (DSState.mk (some (MemEntry.mk [mkTxn ("t1") ("2025-01-01") (-500) ("") none none false] 0 none))
      none false [] false none)
    50 ("2024-01-01") plainOpts ("boom") true).1.1
    (MemEntry.mk [mkTxn ("t1") ("2025-01-01") (-500) ("") none none false] 0 none)
    rfl (by decide)

/-- C7: a delta sync against a fresh persistent entry whose remote response
holds zero changed or deleted records leaves the persistent entry untouched
(records, cursor and watermark unchanged), refreshes the in-process entry to
the served records with timestamp `now`, pushes those records to the reactive
store, and returns them. -/
theorem C7_delta_zero_spec (st : DSState) (now : Nat) (o : FetchOpts)
    (sc : CachedView) (k : Int) (defaultSince : String)
    (hmem : st.memCache = none) (hforce : o.forceRefresh = false)
    (hsf : st.storageFailed = false)
    (hsc : getCachedTransactionsS st.storage now (some CACHE_TTL) = some sc)
    (hfloor : ∀ d, sc.sinceDate = some d → ¬(o.sinceDate.getD defaultSince < d)) :
    (getTransactionsDS st now o (RemoteResp.ok [] k) true defaultSince).state.storage =
      st.storage ∧
    (getTransactionsDS st now o (RemoteResp.ok [] k) true defaultSince).state.memCache =
      some (MemEntry.mk sc.transactions now sc.sinceDate) ∧
    (getTransactionsDS st now o (RemoteResp.ok [] k) true defaultSince).result =
      Except.ok (filterTransactions sc.transactions o) ∧
    (getTransactionsDS st now o (RemoteResp.ok [] k) true defaultSince).state.storeTxns =
      some sc.transactions ∧
    (getTransactionsDS st now o (RemoteResp.ok [] k) true defaultSince).warned = false := by
  have hbranch : getTransactionsDS st now o (RemoteResp.ok [] k) true defaultSince =
      deltaBranchDS st now o sc (RemoteResp.ok [] k) := by
    rw [getTransactionsDS, hmem, storageBranchDS]
    simp only [hsf, if_neg (Bool.false_ne_true), hsc]
    rw [if_neg (by rw [hforce]; exact Bool.false_ne_true)]
    cases hd : sc.sinceDate with
    | none => rfl
    | some d => simp [hfloor d hd]
  rw [hbranch, deltaBranchDS]
  simp

/-- Witness for C7: a concrete fresh cache entry with an empty delta. -/
theorem C7_delta_zero_spec_witness :
    (getTransactionsDS
      (DSState.mk none
        (some (StorEntry.mk [mkTxn ("t1") ("2025-01-01") (-500) ("") none none false] 5 none 1000))
        false [] false none)
      1000 plainOpts (RemoteResp.ok [] 9) true ("2024-01-01")).state.storage =
      some (StorEntry.mk [mkTxn ("t1") ("2025-01-01") (-500) ("") none none false] 5 none 1000) :=
  (C7_delta_zero_spec
    (DSState.mk none
      (some (StorEntry.mk [mkTxn ("t1") ("2025-01-01") (-500) ("") none none false] 5 none 1000))
      false [] false none)
    1000 plainOpts
    (CachedView.mk [mkTxn ("t1") ("2025-01-01") (-500) ("") none none false] 5 none)
    9 ("2024-01-01") rfl rfl rfl (by decide) (fun d hd => nomatch hd)).1

/-- C8: with valid inputs, a confirmed dialog, a known category-balance
snapshot, a resolvable transfer payee for the payee contribution account, and
enough shared-expense budget to cover any shortfall, the balancing flow
issues: two category-budget update calls moving the shortfall exactly when
the balancing category lacks headroom (zero otherwise), then exactly three
transaction creates — payer-personal outflow of −amount, payee-personal
inflow of +amount, and one transfer-type create of −amount from the payer
contribution account — all carrying the same fresh balancing tag in their
memo, the transfer being the only transfer-type create, so that the remote
transfer pairing yields 4 resulting transactions. -/
theorem C8_createBalancing_spec (config : Config) (fromMember toMember : Member)
    (amount : Rat) (fromAccountId toAccountId date userMemo : String)
    (picks : Fin 6 → Fin 32) (fromCatBal : CatBal) (currentMonth : String)
    (sharedAccounts : List Account) (destAccount : Account)
    (transferPayee : String)
    (hamt : amount ≠ 0) (hdate : date ≠ "") (hfrom : fromAccountId ≠ "")
    (hto : toAccountId ≠ "")
    (hdest : sharedAccounts.find?
      (fun a => some a.id == toMember.contributionAccountId) = some destAccount)
    (htp : destAccount.transfer_payee_id = some transferPayee)
    (hbudget : fromCatBal.balancing < amount →
      amount - fromCatBal.balancing ≤ fromCatBal.shared) :
    (createBalancingCalls config fromMember toMember amount fromAccountId
        toAccountId date userMemo picks true (some fromCatBal) currentMonth
        sharedAccounts).1 =
      (if fromCatBal.balancing < amount then
        [RemoteCall.updBudget fromMember.budgetId currentMonth
          fromMember.sharedCategoryId
          (toMilliunits (fromCatBal.sharedBudgeted - (amount - fromCatBal.balancing))),
         RemoteCall.updBudget fromMember.budgetId currentMonth
          fromMember.balancingCategoryId
          (toMilliunits (fromCatBal.balancingBudgeted + (amount - fromCatBal.balancing)))]
       else []) ++
      [RemoteCall.createTxn fromMember.budgetId fromAccountId date
        (-(toMilliunits amount)) (appendIdToMemo userMemo (generateBalancingId picks))
        fromMember.balancingCategoryId none,
       RemoteCall.createTxn toMember.budgetId toAccountId date
        (toMilliunits amount) (appendIdToMemo userMemo (generateBalancingId picks))
        toMember.balancingCategoryId none,
       RemoteCall.createTxn (config.sharedBudgetId.getD (""))
        (fromMember.contributionAccountId.getD ("")) date
        (-(toMilliunits amount)) (appendIdToMemo userMemo (generateBalancingId picks))
        none (some transferPayee)] ∧
    (createBalancingCalls config fromMember toMember amount fromAccountId
        toAccountId date userMemo picks true (some fromCatBal) currentMonth
        sharedAccounts).2 = true ∧
    ((createBalancingCalls config fromMember toMember amount fromAccountId
        toAccountId date userMemo picks true (some fromCatBal) currentMonth
        sharedAccounts).1.filter RemoteCall.isCreate).length = 3 ∧
    ((createBalancingCalls config fromMember toMember amount fromAccountId
        toAccountId date userMemo picks true (some fromCatBal) currentMonth
        sharedAccounts).1.filter RemoteCall.isTransferCreate).length = 1 ∧
    resultingEntryCount (createBalancingCalls config fromMember toMember amount
      fromAccountId toAccountId date userMemo picks true (some fromCatBal)
      currentMonth sharedAccounts).1 = 4 ∧
    ((createBalancingCalls config fromMember toMember amount fromAccountId
        toAccountId date userMemo picks true (some fromCatBal) currentMonth
        sharedAccounts).1.filter (fun c => !c.isCreate)).length =
      (if fromCatBal.balancing < amount then 2 else 0) ∧
    extractId (appendIdToMemo userMemo (generateBalancingId picks)) =
      some (generateBalancingId picks) := by
  have hmemo : extractId (appendIdToMemo userMemo (generateBalancingId picks)) =
      some (generateBalancingId picks) := by
    obtain ⟨h1, h2⟩ := generateBalancingId_good picks
    exact extractId_appendIdToMemo h1 h2
  have hval : ¬(amount = 0 ∨ date = "" ∨ fromAccountId = "" ∨ toAccountId = "") := by
    push_neg
    exact ⟨hamt, hdate, hfrom, hto⟩
  by_cases hb : fromCatBal.balancing < amount
  · have hbc : balancingBudgetCalls fromMember currentMonth amount (some fromCatBal) =
        some [RemoteCall.updBudget fromMember.budgetId currentMonth
          fromMember.sharedCategoryId
          (toMilliunits (fromCatBal.sharedBudgeted - (amount - fromCatBal.balancing))),
         RemoteCall.updBudget fromMember.budgetId currentMonth
          fromMember.balancingCategoryId
          (toMilliunits (fromCatBal.balancingBudgeted + (amount - fromCatBal.balancing)))] := by
      simp only [balancingBudgetCalls]
      rw [if_pos hb, if_neg (not_lt.mpr (hbudget hb))]
    refine ⟨?_, ?_, ?_, ?_, ?_, ?_, hmemo⟩ <;>
      simp [createBalancingCalls, hval, hbc, hdest, htp, hb,
        resultingEntryCount, RemoteCall.isCreate, RemoteCall.isTransferCreate]
  · have hbc : balancingBudgetCalls fromMember currentMonth amount (some fromCatBal) =
        some [] := by
      simp only [balancingBudgetCalls]
      rw [if_neg hb]
    refine ⟨?_, ?_, ?_, ?_, ?_, ?_, hmemo⟩ <;>
      simp [createBalancingCalls, hval, hbc, hdest, htp, hb,
        resultingEntryCount, RemoteCall.isCreate, RemoteCall.isTransferCreate]

/-- Witness for C8: a concrete settlement of 50 with ample balancing headroom
yields 4 resulting ledger entries from 3 creates. -/
theorem C8_createBalancing_spec_witness :
    resultingEntryCount (createBalancingCalls (Config.mk (some ("shared")) [])
      (Member.mk ("A") ("budA") (some ("catSA")) (some ("catBA")) (some ("contribA")))
      (Member.mk ("B") ("budB") (some ("catSB")) (some ("catBB")) (some ("contribB")))
      50 ("accA") ("accB") ("2026-01-15") ("") (fun _ => 0) true
      (some (CatBal.mk 100 200 300 10)) ("2026-01-01")
      [Account.mk ("contribB") (some ("tp1"))]).1 = 4 :=
  (C8_createBalancing_spec (Config.mk (some ("shared")) [])
    (Member.mk ("A") ("budA") (some ("catSA")) (some ("catBA")) (some ("contribA")))
    (Member.mk ("B") ("budB") (some ("catSB")) (some ("catBB")) (some ("contribB")))
    50 ("accA") ("accB") ("2026-01-15") ("") (fun _ => 0)
    (CatBal.mk 100 200 300 10) ("2026-01-01")
    [Account.mk ("contribB") (some ("tp1"))]
    (Account.mk ("contribB") (some ("tp1"))) ("tp1")
    (by norm_num) (by decide) (by decide) (by decide)
    (by decide) (by decide)
    (fun h => absurd h (by norm_num))).2.2.2.2.1

/-- C10 counterexample: the claim quantifies over any delta list, but a delta
holding a non-deleted record and a later deleted record with the same id
merges to an array in which that non-deleted delta record does not appear at
all (the claim asserts it appears exactly once). -/
theorem C10_counterexample :
    (updateCachedTransactions (some (StorEntry.mk [] 0 none 0))
      [mkTxn ("a") ("2026-01-01") 5 ("") none none false,
       mkTxn ("a") ("2026-01-02") 6 ("") none none true] 1 99).transactions = [] ∧
    (mkTxn ("a") ("2026-01-01") 5 ("") none none false).deleted = false ∧
    ((([] : List Txn)).map Txn.id).Nodup := by
  decide

/-- C10 (amended): for a cache entry with pairwise-distinct transaction ids
and a delta list with pairwise-distinct ids, the merge preserves id
uniqueness; each non-deleted delta record appears exactly once (as its
field-reduced projection, replacing any prior record with its id); every id
marked deleted in the delta is absent; records not mentioned in the delta are
retained; and the cursor is replaced while the since-watermark is kept. -/
theorem C10_updateCached_merge_spec (entry : StorEntry) (delta : List Txn)
    (newK : Int) (now : Nat)
    (hc : (entry.transactions.map Txn.id).Nodup)
    (hd : (delta.map Txn.id).Nodup) :
    (((updateCachedTransactions (some entry) delta newK now).transactions.map
      Txn.id).Nodup) ∧
    (∀ d ∈ delta, d.deleted = false →
      (updateCachedTransactions (some entry) delta newK now).transactions.countP
          (fun t => t.id == d.id) = 1 ∧
      ∀ r ∈ (updateCachedTransactions (some entry) delta newK now).transactions,
        r.id = d.id → r = stripToCacheFields d) ∧
    (∀ d ∈ delta, d.deleted = true →
      ∀ r ∈ (updateCachedTransactions (some entry) delta newK now).transactions,
        r.id ≠ d.id) ∧
    (∀ r ∈ entry.transactions, (∀ d ∈ delta, d.id ≠ r.id) →
      r ∈ (updateCachedTransactions (some entry) delta newK now).transactions) ∧
    (updateCachedTransactions (some entry) delta newK now).serverKnowledge = newK ∧
    (updateCachedTransactions (some entry) delta newK now).sinceDate =
      entry.sinceDate := by
  have htr : (updateCachedTransactions (some entry) delta newK now).transactions =
      mergeDelta entry.transactions delta := rfl
  obtain ⟨m1, m2, m3, m4⟩ := mergeDelta_master delta entry.transactions hc hd
  refine ⟨by rw [htr]; exact m1, ?_, ?_, ?_, rfl, rfl⟩
  · intro d hdm hdel
    obtain ⟨hmem, huniq⟩ := m2 d hdm hdel
    refine ⟨?_, by rw [htr]; exact huniq⟩
    rw [htr]
    have := countP_id_eq_one m1 hmem
    simpa [stripToCacheFields_eq] using this
  · intro d hdm hdel
    rw [htr]
    exact m3 d hdm hdel
  · intro r hr hne
    rw [htr]
    exact m4 r hr hne

/-- Witness for C10 (amended): a concrete merge of one upsert into a
one-record cache keeps ids unique. -/
theorem C10_updateCached_merge_spec_witness :
    ((updateCachedTransactions
      (some (StorEntry.mk [mkTxn ("b") ("2026-01-01") 1 ("") none none false] 0 none 0))
      [mkTxn ("a") ("2026-01-02") 5 ("") none none false] 7 99).transactions.map
        Txn.id).Nodup :=
  (C10_updateCached_merge_spec
    (StorEntry.mk [mkTxn ("b") ("2026-01-01") 1 ("") none none false] 0 none 0)
    [mkTxn ("a") ("2026-01-02") 5 ("") none none false] 7 99
    (by decide) (by decide)).1

/-- Witness for C4 (amended): with an empty account the flow creates, and
with a matching-amount tagged transaction present the flow is a no-op. -/
theorem C4_ensureContribution_spec_witness :
    ensureContributionAction [] ("M-01-26") 50000 ("2026-01-01") none =
      EnsureAction.create ("2026-01-01") ("#M-01-26#") 50000 none ∧
    ensureContributionAction
      [mkTxn ("t1") ("2026-01-01") 50000 ("#M-01-26#") none none false]
      ("M-01-26") 50000 ("2026-01-01") none = EnsureAction.noop :=
  ⟨(C4_ensureContribution_spec [] ("M-01-26") 50000 ("2026-01-01") none).2.1
      (by simp),
   ((C4_ensureContribution_spec
      [mkTxn ("t1") ("2026-01-01") 50000 ("#M-01-26#") none none false]
      ("M-01-26") 50000 ("2026-01-01") none).2.2
      (mkTxn ("t1") ("2026-01-01") 50000 ("#M-01-26#") none none false)
      (by decide)).2 (by decide)⟩

/-! ## Helper lemmas: the recomputation pass only buckets admissible
transactions -/

theorem foldl_preserve {α β : Type} {P : β → Prop} {f : β → α → β} :
    ∀ {l : List α} {init : β}, P init →
      (∀ acc x, x ∈ l → P acc → P (f acc x)) → P (l.foldl f init) := by
  intro l
  induction l with
  | nil =>
    intro init h0 _
    simpa using h0
  | cons a t ih =>
    intro init h0 hstep
    rw [List.foldl_cons]
    exact ih (hstep init a (by simp) h0)
      (fun acc x hx hacc => hstep acc x (by simp [hx]) hacc)

theorem alGet_value {α : Type} {P : α → Prop} {l : List (String × α)}
    (hl : ∀ e ∈ l, P e.2) {k : String} {v : α} (h : alGet l k = some v) :
    P v := by
  rw [alGet] at h
  cases hf : l.find? (fun p => p.1 == k) with
  | none => rw [hf] at h; simp at h
  | some e =>
    rw [hf] at h
    have h2 : e.2 = v := Option.some.inj (by exact h)
    rw [← h2]
    exact hl e (List.mem_of_find?_eq_some hf)

theorem alSet_values {α : Type} {P : α → Prop} :
    ∀ {l : List (String × α)} {k : String} {v : α},
      (∀ e ∈ l, P e.2) → P v → ∀ e ∈ alSet l k v, P e.2 := by
  intro l
  induction l with
  | nil =>
    intro k v _ hv e he
    rw [alSet] at he
    rw [List.mem_singleton] at he
    rw [he]
    exact hv
  | cons hd tl ih =>
    intro k v hl hv e he
    obtain ⟨k2, v2⟩ := hd
    rw [alSet] at he
    by_cases hk : k2 = k
    · rw [if_pos hk] at he
      rcases List.mem_cons.mp he with he | he
      · rw [he]
        exact hv
      · exact hl e (List.mem_cons.mpr (Or.inr he))
    · rw [if_neg hk] at he
      rcases List.mem_cons.mp he with he | he
      · rw [he]
        exact hl (k2, v2) (by simp)
      · exact ih (fun e2 he2 => hl e2 (List.mem_cons.mpr (Or.inr he2))) hv e he

theorem alPush_values {α : Type} {P : α → Prop} {l : List (String × List α)}
    {k : String} {x : α} (hl : ∀ e ∈ l, ∀ y ∈ e.2, P y) (hx : P x) :
    ∀ e ∈ alPush l k x, ∀ y ∈ e.2, P y := by
  rw [alPush]
  apply alSet_values (P := fun lst => ∀ y ∈ lst, P y) hl
  intro y hy
  rcases List.mem_append.mp hy with hy | hy
  · cases hg : alGet l k with
    | none => rw [hg] at hy; simp at hy
    | some w =>
      rw [hg] at hy
      exact alGet_value (P := fun lst => ∀ y ∈ lst, P y) hl hg y hy
  · rw [List.mem_singleton] at hy
    rw [hy]
    exact hx

theorem pushPersonal_ok {store : BudgetStore} {byId : List (String × LinkGroup)}
    {id name : String} {t : Txn}
    (h : ∀ e ∈ byId, (∀ pe ∈ e.2.personal, ∀ u ∈ pe.2, GoodTxn store u) ∧
      (∀ se ∈ e.2.shared, GoodTxn store se.1))
    (ht : GoodTxn store t) :
    ∀ e ∈ pushPersonal byId id name t,
      (∀ pe ∈ e.2.personal, ∀ u ∈ pe.2, GoodTxn store u) ∧
      (∀ se ∈ e.2.shared, GoodTxn store se.1) := by
  rw [pushPersonal]
  have hg : (∀ pe ∈ ((alGet byId id).getD (LinkGroup.mk [] [])).personal,
      ∀ u ∈ pe.2, GoodTxn store u) ∧
      (∀ se ∈ ((alGet byId id).getD (LinkGroup.mk [] [])).shared,
        GoodTxn store se.1) := by
    cases hget : alGet byId id with
    | none => simp
    | some g =>
      exact alGet_value (P := fun (g : LinkGroup) =>
        (∀ pe ∈ g.personal, ∀ u ∈ pe.2, GoodTxn store u) ∧
        (∀ se ∈ g.shared, GoodTxn store se.1)) h hget
  exact alSet_values (P := fun (g : LinkGroup) =>
    (∀ pe ∈ g.personal, ∀ u ∈ pe.2, GoodTxn store u) ∧
    (∀ se ∈ g.shared, GoodTxn store se.1)) h ⟨alPush_values hg.1 ht, hg.2⟩

theorem pushShared_ok {store : BudgetStore} {byId : List (String × LinkGroup)}
    {id name : String} {t : Txn}
    (h : ∀ e ∈ byId, (∀ pe ∈ e.2.personal, ∀ u ∈ pe.2, GoodTxn store u) ∧
      (∀ se ∈ e.2.shared, GoodTxn store se.1))
    (ht : GoodTxn store t) :
    ∀ e ∈ pushShared byId id name t,
      (∀ pe ∈ e.2.personal, ∀ u ∈ pe.2, GoodTxn store u) ∧
      (∀ se ∈ e.2.shared, GoodTxn store se.1) := by
  rw [pushShared]
  have hg : (∀ pe ∈ ((alGet byId id).getD (LinkGroup.mk [] [])).personal,
      ∀ u ∈ pe.2, GoodTxn store u) ∧
      (∀ se ∈ ((alGet byId id).getD (LinkGroup.mk [] [])).shared,
        GoodTxn store se.1) := by
    cases hget : alGet byId id with
    | none => simp
    | some g =>
      exact alGet_value (P := fun (g : LinkGroup) =>
        (∀ pe ∈ g.personal, ∀ u ∈ pe.2, GoodTxn store u) ∧
        (∀ se ∈ g.shared, GoodTxn store se.1)) h hget
  have hsh : ∀ se ∈ ((alGet byId id).getD (LinkGroup.mk [] [])).shared ++ [(t, name)],
      GoodTxn store se.1 := by
    intro se hse
    rcases List.mem_append.mp hse with hse | hse
    · exact hg.2 se hse
    · rw [List.mem_singleton] at hse
      rw [hse]
      exact ht
  exact alSet_values (P := fun (g : LinkGroup) =>
    (∀ pe ∈ g.personal, ∀ u ∈ pe.2, GoodTxn store u) ∧
    (∀ se ∈ g.shared, GoodTxn store se.1)) h ⟨hg.1, hsh⟩

theorem processPersonalTxn_ok {store : BudgetStore} {b : Buckets} {m : Member}
    {t : Txn} (hb : BucketsOK store b) (ht : ∃ p ∈ store, t ∈ p.2) :
    BucketsOK store (processPersonalTxn b m t) := by
  obtain ⟨h1, h2, h3, h4, h5⟩ := hb
  rw [processPersonalTxn]
  by_cases hdel : t.deleted = true
  · rw [if_pos hdel]
    exact ⟨h1, h2, h3, h4, h5⟩
  · have hg : GoodTxn store t := ⟨Bool.eq_false_iff.mpr hdel, ht⟩
    rw [if_neg hdel]
    cases he : extractId t.memo with
    | some id =>
      exact ⟨pushPersonal_ok h1 hg, h2, h3,
        alPush_values (P := fun (p : Txn × String) => GoodTxn store p.1) h4 hg, h5⟩
    | none =>
      exact ⟨h1, alPush_values h2 hg, h3, h4, h5⟩

theorem processSharedTxn_ok {store : BudgetStore} {b : Buckets} {m : Member}
    {t : Txn} (hb : BucketsOK store b) (ht : ∃ p ∈ store, t ∈ p.2) :
    BucketsOK store (processSharedTxn b m t) := by
  obtain ⟨h1, h2, h3, h4, h5⟩ := hb
  rw [processSharedTxn]
  by_cases hdel : t.deleted = true
  · rw [if_pos hdel]
    exact ⟨h1, h2, h3, h4, h5⟩
  · have hg : GoodTxn store t := ⟨Bool.eq_false_iff.mpr hdel, ht⟩
    rw [if_neg hdel]
    cases he : extractId t.memo with
    | some id =>
      exact ⟨pushShared_ok h1 hg, h2, h3, h4,
        alPush_values (P := fun (p : Txn × String) => GoodTxn store p.1) h5 hg⟩
    | none =>
      exact ⟨h1, h2, alPush_values h3 hg, h4, h5⟩

theorem budgetTxns_sub (store : BudgetStore) (bid : String) :
    ∀ t ∈ budgetTxns store bid, ∃ p ∈ store, t ∈ p.2 := by
  intro t ht
  rw [budgetTxns] at ht
  cases hf : store.find? (fun p => p.1 == bid) with
  | none => rw [hf] at ht; simp at ht
  | some p =>
    rw [hf] at ht
    exact ⟨p, List.mem_of_find?_eq_some hf, ht⟩

theorem storeFiltered_sub (store : BudgetStore) (bid : String)
    (acc cat : Option String) :
    ∀ t ∈ storeFiltered store bid acc cat, ∃ p ∈ store, t ∈ p.2 := by
  intro t ht
  simp only [storeFiltered] at ht
  apply budgetTxns_sub store bid
  cases acc with
  | none =>
    cases cat with
    | none => exact ht
    | some c => exact (List.mem_filter.mp ht).1
  | some a =>
    cases cat with
    | none => exact (List.mem_filter.mp ht).1
    | some c => exact (List.mem_filter.mp (List.mem_filter.mp ht).1).1

theorem dedupByIdGo_sub :
    ∀ (l : List Txn) (seen : List String), ∀ t ∈ dedupByIdGo l seen, t ∈ l := by
  intro l
  induction l with
  | nil => intro seen t ht; simpa [dedupByIdGo] using ht
  | cons a tl ih =>
    intro seen t ht
    rw [dedupByIdGo] at ht
    by_cases hs : a.id ∈ seen
    · rw [if_pos hs] at ht
      exact List.mem_cons.mpr (Or.inr (ih seen t ht))
    · rw [if_neg hs] at ht
      rcases List.mem_cons.mp ht with ht | ht
      · exact List.mem_cons.mpr (Or.inl ht)
      · exact List.mem_cons.mpr (Or.inr (ih _ t ht))

theorem personalTxnsFor_sub (store : BudgetStore) (m : Member) :
    ∀ t ∈ personalTxnsFor store m, ∃ p ∈ store, t ∈ p.2 := by
  intro t ht
  rw [personalTxnsFor] at ht
  have ht2 := dedupByIdGo_sub _ [] t ht
  rcases List.mem_append.mp ht2 with ht2 | ht2
  · exact storeFiltered_sub store m.budgetId none m.sharedCategoryId t ht2
  · cases hb : m.balancingCategoryId with
    | none => rw [hb] at ht2; simp at ht2
    | some c =>
      rw [hb] at ht2
      exact storeFiltered_sub store m.budgetId none (some c) t ht2

theorem processMember_ok {store : BudgetStore} {sharedBudgetId : String}
    {b : Buckets} {m : Member} (hb : BucketsOK store b) :
    BucketsOK store (processMember store sharedBudgetId b m) := by
  rw [processMember]
  apply foldl_preserve
  · apply foldl_preserve hb
    intro acc t htm hacc
    exact processPersonalTxn_ok hacc (personalTxnsFor_sub store m t htm)
  · intro acc t htm hacc
    exact processSharedTxn_ok hacc
      (storeFiltered_sub store sharedBudgetId m.contributionAccountId none t htm)

theorem initBuckets_ok (store : BudgetStore) (members : List Member) :
    BucketsOK store (initBuckets members) := by
  refine ⟨by intro e he; simp [initBuckets] at he, ?_, ?_, ?_, ?_⟩ <;>
  · intro e he
    simp only [initBuckets, List.mem_map] at he
    obtain ⟨m2, _, he⟩ := he
    intro y hy
    rw [← he] at hy
    simp at hy

/-- C2: every recomputation pass produces buckets that hold only admissible
transactions — no record whose deleted flag is set appears in any linked
group (personal or shared side), nor in any linked or unlinked per-member
list, and every bucketed record is drawn from the raw per-ledger arrays, so
deleting a transaction from the raw set and recomputing removes it from every
bucket it previously occupied.  Raw mutations (full replace, single upsert,
single delete) and configuration changes all trigger exactly this pass, so
the invariant holds after each of them. -/
theorem C2_deleted_never_in_buckets (config : Config) (store : BudgetStore)
    (ds : DerivedState) (h : computeLinkedPairs config store = some ds) :
    (∀ pr ∈ ds.linkedPairs,
      (∀ pe ∈ pr.personal, ∀ t ∈ pe.2, GoodTxn store t) ∧
      (∀ se ∈ pr.shared, GoodTxn store se.1)) ∧
    (∀ e ∈ ds.unlinkedPersonal, ∀ t ∈ e.2, GoodTxn store t) ∧
    (∀ e ∈ ds.unlinkedShared, ∀ t ∈ e.2, GoodTxn store t) ∧
    (∀ e ∈ ds.linkedPersonal, ∀ p ∈ e.2, GoodTxn store p.1) ∧
    (∀ e ∈ ds.linkedShared, ∀ p ∈ e.2, GoodTxn store p.1) := by
  rw [computeLinkedPairs] at h
  cases hsb : config.sharedBudgetId with
  | none => rw [hsb] at h; simp at h
  | some sb =>
    rw [hsb] at h
    cases hms : config.members with
    | nil => rw [hms] at h; simp at h
    | cons m0 ms =>
      rw [hms] at h
      simp only [Option.some.injEq] at h
      have hB : BucketsOK store ((m0 :: ms).foldl (processMember store sb)
          (initBuckets (m0 :: ms))) := by
        apply foldl_preserve (initBuckets_ok store (m0 :: ms))
        intro acc m _ hacc
        exact processMember_ok hacc
      obtain ⟨hB1, hB2, hB3, hB4, hB5⟩ := hB
      rw [← h]
      refine ⟨?_, ?_, ?_, ?_, ?_⟩
      · intro pr hpr
        have hpr2 := (List.perm_insertionSort _ _).mem_iff.mp hpr
        simp only [List.mem_map] at hpr2
        obtain ⟨e, he, hpr3⟩ := hpr2
        rw [← hpr3]
        exact hB1 e he
      · intro e he t ht
        simp only [List.mem_map] at he
        obtain ⟨p, hp, he2⟩ := he
        rw [← he2] at ht
        exact hB2 p hp t
          ((List.perm_insertionSort _ _).mem_iff.mp ht)
      · intro e he t ht
        simp only [List.mem_map] at he
        obtain ⟨p, hp, he2⟩ := he
        rw [← he2] at ht
        exact hB3 p hp t
          ((List.perm_insertionSort _ _).mem_iff.mp ht)
      · intro e he q hq
        simp only [List.mem_map] at he
        obtain ⟨p, hp, he2⟩ := he
        rw [← he2] at hq
        exact hB4 p hp q
          ((List.perm_insertionSort _ _).mem_iff.mp hq)
      · intro e he q hq
        simp only [List.mem_map] at he
        obtain ⟨p, hp, he2⟩ := he
        rw [← he2] at hq
        exact hB5 p hp q
          ((List.perm_insertionSort _ _).mem_iff.mp hq)

/-- Witness for C2: a one-member store whose single raw transaction lands in
the unlinked-personal bucket is admissible (not deleted, drawn from the raw
array). -/
theorem C2_deleted_never_in_buckets_witness :
    GoodTxn [(("bud"), [mkTxn ("t1") ("2026-01-02") (-500) ("") none (some ("cat")) false])]
      (mkTxn ("t1") ("2026-01-02") (-500) ("") none (some ("cat")) false) :=
  (C2_deleted_never_in_buckets
    (Config.mk (some ("shared"))
      [Member.mk ("a") ("bud") (some ("cat")) none (some ("acc"))])
    [(("bud"), [mkTxn ("t1") ("2026-01-02") (-500) ("") none (some ("cat")) false])]
    (DerivedState.mk []
      [(("a"), [mkTxn ("t1") ("2026-01-02") (-500) ("") none (some ("cat")) false])]
      [(("a"), [])] [(("a"), [])] [(("a"), [])])
    rfl).2.1
    (("a"), [mkTxn ("t1") ("2026-01-02") (-500) ("") none (some ("cat")) false])
    (by simp)
    (mkTxn ("t1") ("2026-01-02") (-500) ("") none (some ("cat")) false)
    (by simp)
